import Mathlib

/-!
Verification of the dependency-graph task scheduler of the golf travel agent
(`src/travel_agent/agents/supervisor.py`, `src/travel_agent/agents/planner.py`,
`src/travel_agent/graph/state.py`).

The Python code manipulates JSON-like dictionaries.  We embed those values as
the inductive type `Val` below, with Python truthiness, `str()` rendering and
`dict.get` lookup made explicit.  Places where the Python code would raise on
data of an unexpected shape (for example `x[0]` on a non-list) sit either under
a `try/except` whose handler drops the update, or are only ever reached with
record-shaped data; the embedding returns the Python `None` analogue
(`Val.vnull`) there, and theorems that depend on those paths are instantiated
at record-shaped fact stores.
-/

namespace GolfSched

/-- A Python/JSON value: `None`, booleans, integers, strings, lists and
string-keyed dicts (insertion ordered, as in Python 3.7+). -/
inductive Val where
  | vnull : Val
  | vbool : Bool → Val
  | vint : Int → Val
  | vstr : String → Val
  | vlist : List Val → Val
  | vdict : List (String × Val) → Val

/-- Structural equality on values, standing in for Python `==` (Python dict
equality is key-order insensitive; the scheduler only ever compares scalars,
where the two notions agree). -/
def Val.beq : Val → Val → Bool
  | .vnull, .vnull => true
  | .vbool a, .vbool b => a == b
  | .vint a, .vint b => a == b
  | .vstr a, .vstr b => a == b
  | .vlist [], .vlist [] => true
  | .vlist (x :: xs), .vlist (y :: ys) => Val.beq x y && Val.beq (.vlist xs) (.vlist ys)
  | .vdict [], .vdict [] => true
  | .vdict ((k1, v1) :: xs), .vdict ((k2, v2) :: ys) =>
      k1 == k2 && Val.beq v1 v2 && Val.beq (.vdict xs) (.vdict ys)
  | _, _ => false

instance : BEq Val := ⟨Val.beq⟩

/-- Python truthiness (`if value:`): `None`, `False`, `0`, `""`, `[]`, `{}`
are falsy, everything else truthy. -/
def pyTruthy : Val → Bool
  | .vnull => false
  | .vbool b => b
  | .vint n => n != 0
  | .vstr s => !(s == "")
  | .vlist xs => !xs.isEmpty
  | .vdict fs => !fs.isEmpty

mutual

/-- Python `repr`, used by `str()` on containers.  Matches CPython on
`None`/`bool`/`int` and on strings free of quote characters; string escaping
inside containers is not modelled (never exercised by the claims). -/
def pyRepr : Val → String
  | .vnull => "None"
  | .vbool true => "True"
  | .vbool false => "False"
  | .vint n => toString n
  | .vstr s => "\x27" ++ s ++ "\x27"
  | .vlist xs => "[" ++ pyReprList xs ++ "]"
  | .vdict fs => "\x7b" ++ pyReprFields fs ++ "\x7d"

/-- Comma-joined `repr`s of list elements. -/
def pyReprList : List Val → String
  | [] => ""
  | [x] => pyRepr x
  | x :: y :: xs => pyRepr x ++ ", " ++ pyReprList (y :: xs)

/-- Comma-joined `repr`s of dict entries. -/
def pyReprFields : List (String × Val) → String
  | [] => ""
  | [(k, v)] => "\x27" ++ k ++ "\x27: " ++ pyRepr v
  | (k, v) :: e :: fs => "\x27" ++ k ++ "\x27: " ++ pyRepr v ++ ", " ++ pyReprFields (e :: fs)

end

/-- Python `str()`: identity on strings, `repr`-like elsewhere. -/
def pyStr : Val → String
  | .vstr s => s
  | v => pyRepr v

mutual

/-- `json.dumps(..., ensure_ascii=False)`, modulo string escaping. -/
def jsonDumps : Val → String
  | .vnull => "null"
  | .vbool true => "true"
  | .vbool false => "false"
  | .vint n => toString n
  | .vstr s => "\"" ++ s ++ "\""
  | .vlist xs => "[" ++ jsonDumpsList xs ++ "]"
  | .vdict fs => "\x7b" ++ jsonDumpsFields fs ++ "\x7d"

/-- Comma-joined JSON renderings of list elements. -/
def jsonDumpsList : List Val → String
  | [] => ""
  | [x] => jsonDumps x
  | x :: y :: xs => jsonDumps x ++ ", " ++ jsonDumpsList (y :: xs)

/-- Comma-joined JSON renderings of dict entries. -/
def jsonDumpsFields : List (String × Val) → String
  | [] => ""
  | [(k, v)] => "\"" ++ k ++ "\": " ++ jsonDumps v
  | (k, v) :: e :: fs => "\"" ++ k ++ "\": " ++ jsonDumps v ++ ", " ++ jsonDumpsFields (e :: fs)

end

/-- First binding of key `k` in an association list (Python dicts have unique
keys, so first-match agrees with the dict lookup). -/
def assocGet (fs : List (String × Val)) (k : String) : Option Val :=
  (fs.find? fun kv => kv.1 == k).map (·.2)

/-- `d.get(k)` on a dict value, with Python's `None` default; on a non-dict the
Python `.get` call would raise, which every relevant call site either wraps in
`try/except`-and-skip or never reaches — both collapse to `None` here. -/
def pGet (d : Val) (k : String) : Val :=
  match d with
  | .vdict fs => (assocGet fs k).getD .vnull
  | _ => .vnull

/-- `d.get(k, default)` for the top-level `trip_data` dict. -/
def dictGetD (fs : List (String × Val)) (k : String) (dflt : Val) : Val :=
  (assocGet fs k).getD dflt

/-- Python `v == c` against a string literal: true only for the equal
string (any non-string compares unequal). -/
def valEqStr (v : Val) (c : String) : Bool :=
  match v with
  | .vstr s => s == c
  | _ => false

/-- Python `a or b`: `a` if truthy, else `b`. -/
def pyOr (a b : Val) : Val := if pyTruthy a then a else b

/-- `x[0]` on a list value; the non-list/empty cases raise in Python and are
only reached under guards whose handler is equivalent to returning `None`. -/
def index0 : Val → Val
  | .vlist (h :: _) => h
  | _ => .vnull

/-- `d[k] = v` on an insertion-ordered dict: update in place or append. -/
def dictSet (fs : List (String × Val)) (k : String) (v : Val) : List (String × Val) :=
  match fs with
  | [] => [(k, v)]
  | (k2, v2) :: rest =>
      if k2 == k then (k, v) :: rest else (k2, v2) :: dictSet rest k v

/-- `"id" in x` key-presence test on a dict's fields. -/
def hasKey (fs : List (String × Val)) (k : String) : Bool :=
  fs.any fun kv => kv.1 == k

/-- Does the character list start with `pat`? -/
def charsStartWith : List Char → List Char → Bool
  | [], _ => true
  | _ :: _, [] => false
  | a :: as, b :: bs => a == b && charsStartWith as bs

/-- Does `pat` occur as a contiguous run inside the character list? -/
def charsContain (pat : List Char) : List Char → Bool
  | [] => pat.isEmpty
  | c :: rest => charsStartWith pat (c :: rest) || charsContain pat rest

/-- Python `pat in s` substring test. -/
def containsStr (s pat : String) : Bool :=
  charsContain pat.data s.data

/-- Python `s.startswith(pat)`. -/
def startsWithStr (s pat : String) : Bool :=
  charsStartWith pat.data s.data

/-- Python `s.lower()` (ASCII case folding; the Chinese text is unaffected). -/
def strLower (s : String) : String :=
  ⟨s.data.map Char.toLower⟩

/-- A character Python's `str.strip()` removes. -/
def isPySpace (c : Char) : Bool :=
  c == ' ' || c == '\t' || c == '\n' || c == '\r'

/-- Python `s.strip()`. -/
def strTrim (s : String) : String :=
  ⟨((s.data.dropWhile isPySpace).reverse.dropWhile isPySpace).reverse⟩

/-- Python `s[:n]` slicing by code points. -/
def strTake (s : String) (n : Nat) : String :=
  ⟨s.data.take n⟩

/-- `", ".join(parts)`. -/
def strJoin (sep : String) : List String → String
  | [] => ""
  | [x] => x
  | x :: y :: xs => x ++ sep ++ strJoin sep (y :: xs)

end GolfSched

namespace GolfSched

/-- `SlotStatus` (`graph/state.py`): `PENDING -> DISPATCHED -> FILLED/FAILED`. -/
inductive SlotStatus where
  | PENDING | DISPATCHED | FILLED | FAILED
deriving DecidableEq

open SlotStatus

/-- A `DataSlot` (`graph/state.py`): one unit of required work.  `value` is
`none` for Python `None`/field absent; a present value is an arbitrary
JSON-like `Val` (worker-result absorption can store non-string payloads). -/
structure Slot where
  id : String
  field_name : String
  description : String
  source_agent : String
  dependencies : List String
  status : SlotStatus
  value : Option Val

/-- An incremental update record sent through the `procurement_plan` reducer:
a dict carrying `id` plus any subset of the other Slot fields (`none` means
the key is absent from the update dict). -/
structure SlotUpd where
  id : String
  field_name : Option String := none
  description : Option String := none
  source_agent : Option String := none
  dependencies : Option (List String) := none
  status : Option SlotStatus := none
  value : Option (Option Val) := none

/-- The last message on the state, as read by `_handle_worker_result`:
`getattr(msg, "name", None)` and `getattr(msg, "content", "") or ""`. -/
structure Msg where
  name : Option String
  content : String

/-- The session fact store `trip_data`: a string-keyed dict of values. -/
def TripData := List (String × Val)

-- ==================== graph/state.py : merge_trip_data ====================

/-- `dict.update(item)` on a record inside a list value: field-level merge,
the update's fields override. -/
def dictUpdate (d item : List (String × Val)) : List (String × Val) :=
  item.foldl (fun acc kv => dictSet acc kv.1 kv.2) d

/-- Last-wins lookup in the `id -> index` working map of the list merge
(a Python dict comprehension keeps the last binding of a duplicated key,
and later assignments overwrite). -/
def idxLookup (m : List (Val × Nat)) (k : Val) : Option Nat :=
  (m.reverse.find? fun e => e.1 == k).map (·.2)

/-- The `id -> index` map built from the existing list: one entry per element
that is a dict with an `"id"` key, in order (so last occurrence wins). -/
def buildIdMap (existing : List Val) : List (Val × Nat) :=
  (existing.enum.filterMap fun xi =>
    match xi.2 with
    | .vdict fs => if hasKey fs "id" then some (dictGetD fs "id" .vnull, xi.1) else none
    | _ => none)

/-- Replace the element at an index (out-of-range is a no-op; the scheduler
only ever produces in-range indices). -/
def modifyIdx (f : Val → Val) : List Val → Nat → List Val
  | [], _ => []
  | x :: xs, 0 => f x :: xs
  | x :: xs, n + 1 => x :: modifyIdx f xs n

/-- One step of the list-merge loop of `merge_trip_data`: a dict item with an
`"id"` key is upserted by id (field-level merge on a hit, append plus map
extension on a miss); any other item is appended only if absent. -/
def mergeListStep (st : List Val × List (Val × Nat)) (item : Val) : List Val × List (Val × Nat) :=
  match item with
  | .vdict fs =>
      if hasKey fs "id" then
        let iid := dictGetD fs "id" .vnull
        match idxLookup st.2 iid with
        | some idx =>
            (modifyIdx (fun x => match x with
              | .vdict f2 => .vdict (dictUpdate f2 fs)
              | other => other) st.1 idx, st.2)
        | none => (st.1 ++ [item], st.2 ++ [(iid, st.1.length)])
      else
        if st.1.contains item then st else (st.1 ++ [item], st.2)
  | _ => if st.1.contains item then st else (st.1 ++ [item], st.2)

/-- The list-vs-list branch of `merge_trip_data`. -/
def mergeLists (existing upd : List Val) : List Val :=
  (upd.foldl mergeListStep (existing, buildIdMap existing)).1

/-- `merge_trip_data` (`graph/state.py`): scalar overwrite for non-list values,
smart merge when both sides are lists.  (The Python code mutates the existing
list in place; the resulting dict is the same as re-binding the key.) -/
def merge_trip_data (current update : TripData) : TripData :=
  update.foldl (fun merged kv =>
    match kv.2, dictGetD merged kv.1 .vnull, (assocGet merged kv.1).isSome with
    | .vlist vs, .vlist es, true => dictSet merged kv.1 (.vlist (mergeLists es vs))
    | v, _, _ => dictSet merged kv.1 v) current

-- ==================== graph/state.py : update_procurement_plan ====================

/-- `{**result[idx], **slot_update}`: the update's present fields override the
slot's; the `id` key is always present in an applied update and equals the id
it was matched on. -/
def applyUpd (s : Slot) (u : SlotUpd) : Slot :=
  { id := u.id
    field_name := u.field_name.getD s.field_name
    description := u.description.getD s.description
    source_agent := u.source_agent.getD s.source_agent
    dependencies := u.dependencies.getD s.dependencies
    status := u.status.getD s.status
    value := u.value.getD s.value }

/-- The `id -> index` map over the plan (`{slot["id"]: i ...}`): a Python dict
comprehension, so the last occurrence of a duplicated id wins. -/
def idToIdx : List Slot → String → Option Nat
  | [], _ => none
  | s :: rest, i =>
    match idToIdx rest i with
    | some k => some (k + 1)
    | none => if s.id == i then some 0 else none

/-- Replace the slot at an index (out-of-range is a no-op; `idToIdx` only
produces in-range indices). -/
def modifySlot (f : Slot → Slot) : List Slot → Nat → List Slot
  | [], _ => []
  | x :: xs, 0 => f x :: xs
  | x :: xs, n + 1 => x :: modifySlot f xs n

/-- Incremental mode of `update_procurement_plan`: the `id -> index` map is
built once from the current plan; each update with a truthy `id` found in the
map merges into the slot at that index (`if slot_id and slot_id in id_to_idx`),
other updates are dropped. -/
def applyIncr (p : List Slot) (ups : List SlotUpd) : List Slot :=
  ups.foldl (fun acc u =>
    if u.id ≠ "" then
      match idToIdx p u.id with
      | some k => modifySlot (fun s => applyUpd s u) acc k
      | none => acc
    else acc) p

/-- An update list sent through the `procurement_plan` reducer: either a full
replacement (the planner marks `update[0]` with `_replace=True` and sends
complete slot dicts) or a list of incremental per-id updates. -/
inductive PlanUpdate where
  | replace : List Slot → PlanUpdate
  | incr : List SlotUpd → PlanUpdate

/-- `update_procurement_plan` (`graph/state.py`): full replacement when the
update carries the `_replace` marker, per-id incremental merge otherwise
(an empty update returns the current plan unchanged). -/
def update_procurement_plan (current : List Slot) : PlanUpdate → List Slot
  | .replace slots => slots
  | .incr ups => applyIncr current ups

-- ==================== agents/planner.py : plan construction ====================

/-- A `DataSlotSpec` emitted by the plan generator (`agents/planner.py`). -/
structure DataSlotSpec where
  id : String
  field_name : String
  description : String
  source_agent : String
  dependencies : List String

/-- `planner_node`'s conversion of generator output into the initial plan:
every spec becomes a `PENDING` slot with `value=None`, marked for full
replacement.  No structural validation (dependency closure, id uniqueness)
is performed anywhere on this path. -/
def plannerPlan (specs : List DataSlotSpec) : PlanUpdate :=
  .replace (specs.map fun sp =>
    { id := sp.id
      field_name := sp.field_name
      description := sp.description
      source_agent := sp.source_agent
      dependencies := sp.dependencies
      status := SlotStatus.PENDING
      value := none })

end GolfSched

namespace GolfSched

open SlotStatus

-- ==================== agents/supervisor.py : field mapping ====================

/-- `lambda x: x[0].get(k) if x else None`, the common extractor shape in
`FIELD_TO_TRIP_DATA`. -/
def lam0 (k : String) : Val → Val :=
  fun x => if pyTruthy x then pGet (index0 x) k else .vnull

/-- `lambda x: x if x else None`. -/
def lamSelf : Val → Val :=
  fun x => if pyTruthy x then x else .vnull

/-- `lambda x: x.get(k) if x else None`, for the `customer` dict. -/
def lamDict (k : String) : Val → Val :=
  fun x => if pyTruthy x then pGet x k else .vnull

/-- The event loop of `_extract_location_from_events`: first event whose
`location` or `destination` entry is truthy. -/
def goEvents : List Val → Val
  | [] => .vnull
  | e :: rest =>
      let loc := pyOr (pGet e "location") (pGet e "destination")
      if pyTruthy loc then loc else goEvents rest

/-- `_extract_location_from_events` (`agents/supervisor.py`). -/
def extractLocationFromEvents (events : Val) : Val :=
  match events with
  | .vlist es => goEvents es
  | _ => .vnull

/-- `FIELD_TO_TRIP_DATA` (`agents/supervisor.py`): the static table mapping a
slot's `field_name` to the `trip_data` key holding it and the extractor
pulling the value out. -/
def fieldToTripData : String → Option (String × (Val → Val))
  | "hotel_name" => some ("hotel_bookings", lam0 "hotel_name")
  | "hotel_address" => some ("hotel_bookings", lam0 "address")
  | "check_in" => some ("hotel_bookings", lam0 "check_in")
  | "check_out" => some ("hotel_bookings", lam0 "check_out")
  | "room_type" => some ("hotel_bookings", lam0 "room_type")
  | "course_name" => some ("golf_bookings", lam0 "course_name")
  | "tee_time" => some ("golf_bookings", lam0 "tee_time")
  | "players" => some ("golf_bookings", lam0 "players")
  | "departure_time" => some ("logistics", lam0 "departure_time")
  | "destination" => some ("logistics", lam0 "destination")
  | "vehicle_type" => some ("logistics", lam0 "vehicle_type")
  | "location" => some ("events", extractLocationFromEvents)
  | "event_date" => some ("events", lam0 "event_date")
  | "weather" => some ("weather_report", lamSelf)
  | "weather_forecast" => some ("weather_report", lamSelf)
  | "reviews" => some ("search_findings", lamSelf)
  | "ratings" => some ("search_findings", lamSelf)
  | "tips" => some ("search_findings", lamSelf)
  | "customer_name" => some ("customer", lamDict "name")
  | "handicap" => some ("customer", lamDict "handicap")
  | _ => none

-- ==================== agents/supervisor.py : _extract_real_value ====================

/-- The `for key in (...)` loops of `_extract_real_value`: first key of `b`
whose value satisfies `p`. -/
def findKeyVal (b : Val) (keys : List String) (p : Val → Bool) : Option Val :=
  match keys with
  | [] => none
  | k :: rest =>
      let v := pGet b k
      if p v then some v else findKeyVal b rest p

/-- Hotel section of `_extract_real_value`: try several name keys, skipping
the `"未知酒店"` placeholder, then fall back to whatever `hotel_name` holds. -/
def hotelBranch (trip : TripData) (agent field : String) : Option Val :=
  if agent == "hotel_agent" || field == "hotel_name" || field == "hotel_address" then
    match dictGetD trip "hotel_bookings" (.vlist []) with
    | .vlist (b :: _) =>
        match findKeyVal b ["hotel_name", "name", "酒店名称", "hotel_name_cn"]
            (fun v => pyTruthy v && !(valEqStr v "未知酒店")) with
        | some v => some (.vstr (pyStr v))
        | none =>
            let fb := pGet b "hotel_name"
            if pyTruthy fb then some (.vstr (pyStr fb)) else none
    | _ => none
  else none

/-- Golf section of `_extract_real_value`. -/
def golfBranch (trip : TripData) (agent field : String) : Option Val :=
  if agent == "golf_agent" || field == "course_name" || field == "tee_time" then
    match dictGetD trip "golf_bookings" (.vlist []) with
    | .vlist (b :: _) =>
        if field == "tee_time" then
          (findKeyVal b ["tee_time", "开球时间", "time"] pyTruthy).map (fun v => .vstr (pyStr v))
        else
          (findKeyVal b ["course_name", "name", "球场名称", "course_name_cn"] pyTruthy).map
            (fun v => .vstr (pyStr v))
    | _ => none
  else none

/-- Logistics section of `_extract_real_value`. -/
def logisticsBranch (trip : TripData) (agent field : String) : Option Val :=
  if agent == "logistics_agent" || field == "departure_time" || field == "destination" then
    match dictGetD trip "logistics" (.vlist []) with
    | .vlist (b :: _) =>
        if field == "departure_time" then
          (findKeyVal b ["departure_time", "出发时间", "time"] pyTruthy).map (fun v => .vstr (pyStr v))
        else if field == "destination" then
          (findKeyVal b ["destination", "目的地", "to"] pyTruthy).map (fun v => .vstr (pyStr v))
        else none
    | _ => none
  else none

/-- Weather section of `_extract_real_value`: summary/description of a dict
report, JSON dump of a summary-less dict, `str()` of anything else truthy
(all truncated to 200 code points). -/
def weatherBranch (trip : TripData) (agent field : String) : Option Val :=
  if agent == "weather_agent" || field == "weather" || field == "weather_forecast" then
    let w := dictGetD trip "weather_report" .vnull
    if pyTruthy w then
      match w with
      | .vdict _ =>
          let summary := pyOr (pGet w "summary") (pGet w "description")
          if pyTruthy summary then some (.vstr (strTake (pyStr summary) 200))
          else some (.vstr (strTake (jsonDumps w) 200))
      | _ => some (.vstr (strTake (pyStr w) 200))
    else none
  else none

/-- Customer section of `_extract_real_value`.  Note the `customer_name` case
returns the raw `customer.get("name") or customer.get("姓名")` value, which
may be Python `None` (`Val.vnull` here) — the caller treats that as
unextractable through its truthiness check. -/
def customerBranch (trip : TripData) (agent field : String) : Option Val :=
  if agent == "customer_agent" || field == "customer_name" || field == "handicap" then
    let c := dictGetD trip "customer" (.vdict [])
    if pyTruthy c then
      if field == "customer_name" then
        some (pyOr (pGet c "name") (pGet c "姓名"))
      else if field == "handicap" then
        match pyOr (pGet c "handicap") (pGet c "差点") with
        | .vnull => none
        | v => some (.vstr (pyStr v))
      else none
    else none
  else none

/-- Itinerary section of `_extract_real_value`. -/
def itineraryBranch (trip : TripData) (agent field : String) : Option Val :=
  if agent == "itinerary_agent" || field == "location" then
    let events := dictGetD trip "events" (.vlist [])
    if pyTruthy events then
      let loc := extractLocationFromEvents events
      if pyTruthy loc then some (.vstr (pyStr loc)) else none
    else none
  else none

/-- Generic fallback of `_extract_real_value` through `FIELD_TO_TRIP_DATA`
(the extractor call is `try`-wrapped in the source; a raising extractor is
equivalent to yielding `None` here). -/
def fallbackBranch (trip : TripData) (field : String) : Option Val :=
  match fieldToTripData field with
  | some ke =>
      let data := dictGetD trip ke.1 .vnull
      if pyTruthy data then
        let v := ke.2 data
        if pyTruthy v then some (.vstr (strTake (pyStr v) 500)) else none
      else none
  | none => none

/-- `_extract_real_value` (`agents/supervisor.py`): sequential sections, each
either returning a payload or falling through to the next. -/
def extractReal (trip : TripData) (s : Slot) : Option Val :=
  hotelBranch trip s.source_agent s.field_name <|>
  golfBranch trip s.source_agent s.field_name <|>
  logisticsBranch trip s.source_agent s.field_name <|>
  weatherBranch trip s.source_agent s.field_name <|>
  customerBranch trip s.source_agent s.field_name <|>
  itineraryBranch trip s.source_agent s.field_name <|>
  fallbackBranch trip s.field_name

-- ==================== agents/supervisor.py : _normalize_field_name ====================

/-- `_normalize_field_name`: fuzzy alias-to-canonical field matching. -/
def normalizeFieldName (field : String) : Option String :=
  let fl := strLower field
  if containsStr fl "hotel" && (containsStr fl "name" || containsStr fl "名称" || containsStr fl "名字") then
    some "hotel_name"
  else if containsStr fl "hotel" && (containsStr fl "address" || containsStr fl "地址") then
    some "hotel_address"
  else if containsStr field "酒店" && containsStr field "名" then
    some "hotel_name"
  else if (containsStr fl "golf" || containsStr fl "course" || containsStr field "球场") &&
      (containsStr fl "name" || containsStr fl "名称" || containsStr fl "名字") then
    some "course_name"
  else if containsStr fl "tee" || containsStr field "开球" then
    some "tee_time"
  else if containsStr fl "departure" || containsStr field "出发" then
    some "departure_time"
  else if containsStr fl "destination" || containsStr field "目的地" then
    some "destination"
  else if containsStr fl "weather" || containsStr field "天气" then
    some "weather"
  else if containsStr fl "location" || containsStr field "地点" || containsStr field "位置" then
    some "location"
  else if (containsStr fl "customer" || containsStr field "客户") &&
      (containsStr fl "name" || containsStr field "姓名") then
    some "customer_name"
  else if containsStr fl "handicap" || containsStr field "差点" then
    some "handicap"
  else none

-- ==================== agents/supervisor.py : _sync_with_trip_data ====================

/-- The key/extractor resolution of `_sync_with_trip_data`: exact
`FIELD_TO_TRIP_DATA` lookup first, fuzzy schema normalization second. -/
def syncKeyExt (field : String) : Option (String × (Val → Val)) :=
  match fieldToTripData field with
  | some ke => some ke
  | none =>
      match normalizeFieldName field with
      | some nf => fieldToTripData nf
      | none => none

/-- The per-slot body of `_sync_with_trip_data`: a `PENDING` slot whose field
(directly or via normalization) maps into `trip_data` with a truthy extracted
value yields a `FILLED` update; everything else yields none (the extractor
call is `try`-wrapped in the source). -/
def syncSlotUpd (trip : TripData) (s : Slot) : Option SlotUpd :=
  if s.status ≠ PENDING then none
  else
    match syncKeyExt s.field_name with
    | some (key, ext) =>
        let data := dictGetD trip key .vnull
        if pyTruthy data then
          let v := ext data
          if pyTruthy v then
            some { id := s.id, status := some FILLED,
                   value := some (some (.vstr (strTake (pyStr v) 500))) }
          else none
        else none
    | none => none

/-- `_sync_with_trip_data` (`agents/supervisor.py`). -/
def syncWithTripData (plan : List Slot) (trip : TripData) : List SlotUpd :=
  plan.filterMap (syncSlotUpd trip)

-- ==================== agents/supervisor.py : _find_runnable_slot ====================

/-- `{s["id"]: s for s in procurement_plan}`: last occurrence of a duplicated
id wins, as in a Python dict comprehension. -/
def slotLookup : List Slot → String → Option Slot
  | [], _ => none
  | s :: rest, i =>
    match slotLookup rest i with
    | some t => some t
    | none => if s.id == i then some s else none

/-- `id_to_slot.get(dep_id, {}).get("status") == "FILLED"`: a dependency id
absent from the plan is never `FILLED`. -/
def depFilled (plan : List Slot) (d : String) : Bool :=
  match slotLookup plan d with
  | some t => t.status == FILLED
  | none => false

/-- Is `s` eligible: `PENDING` with every dependency `FILLED`? -/
def runnableB (plan : List Slot) (s : Slot) : Bool :=
  s.status == PENDING && s.dependencies.all (depFilled plan)

/-- `_find_runnable_slot` (`agents/supervisor.py`): first eligible slot in
plan order. -/
def findRunnableSlot (plan : List Slot) : Option Slot :=
  plan.find? (runnableB plan)

-- ==================== agents/supervisor.py : _check_completion ====================

/-- `_check_completion` (`agents/supervisor.py`):
`(is_complete, is_deadlock, reason)`. -/
def checkCompletion (plan : List Slot) : Bool × Bool × String :=
  if plan.isEmpty then (true, false, "采购计划为空")
  else
    let pending := plan.countP (fun s => s.status == PENDING)
    let dispatched := plan.countP (fun s => s.status == DISPATCHED)
    let filled := plan.countP (fun s => s.status == FILLED)
    let failed := plan.countP (fun s => s.status == FAILED)
    if pending == 0 && dispatched == 0 then
      (true, false, "采购完成: " ++ toString filled ++ " FILLED, " ++ toString failed ++ " FAILED")
    else
      match findRunnableSlot plan with
      | none =>
          if pending > 0 && dispatched == 0 then
            (false, true, "死锁: " ++ toString pending ++ " 个 Slot 依赖未满足")
          else (false, false, "")
      | some _ => (false, false, "")

end GolfSched

namespace GolfSched

open SlotStatus

-- ==================== agents/supervisor.py : _hydrate_instruction ====================

/-- The dependency-collection loop of `_hydrate_instruction`: for each
dependency id resolving to a slot with a truthy `value`, append
`field='value'` to the context parts and bind the field in the entity dict
(Python dict assignment: update in place or append). -/
def collectDeps (plan : List Slot) (deps : List String) :
    List String × List (String × Val) :=
  deps.foldl (fun acc depId =>
    match slotLookup plan depId with
    | some depSlot =>
        match depSlot.value with
        | some v =>
            if pyTruthy v then
              (acc.1 ++ [depSlot.field_name ++ "=\x27" ++ pyStr v ++ "\x27"],
               dictSet acc.2 depSlot.field_name v)
            else acc
        | none => acc
    | none => acc) ([], [])

/-- `INVALID_VALUES`: the known unknown/placeholder tokens of the value-sanity
guard. -/
def INVALID_VALUES : List String :=
  ["none", "null", "未知", "unknown", "未知酒店", "未知球场", "",
   "n/a", "na", "无", "暂无", "待定", "tbd", "未填写"]

/-- The guard's per-value invalidity test: lowercased/stripped value in
`INVALID_VALUES`, a `[`-prefixed system message, or containing the marker
text of a system/sentinel message. -/
def guardInvalidVal (v : Val) : Bool :=
  let vs := if pyTruthy v then strTrim (strLower (pyStr v)) else ""
  INVALID_VALUES.contains vs || startsWithStr vs "[" ||
    containsStr vs "数据已获取" || containsStr vs "无法提取"

/-- First entity (in dict insertion order) whose value the guard rejects. -/
def firstInvalidEntity (evs : List (String × Val)) : Option (String × Val) :=
  evs.find? (fun fv => guardInvalidVal fv.2)

/-- The `[ABORT]` instruction string returned by the guard. -/
def abortInstr (f : String) (v : Val) : String :=
  "[ABORT] 依赖数据 \x27" ++ f ++ "\x27 无效（值: " ++ pyStr v ++
    "），无法执行搜索。请直接返回 FAILURE。"

/-- `entity_values.get(k)` with Python `None` default. -/
def evGet (evs : List (String × Val)) (k : String) : Val :=
  (assocGet evs k).getD .vnull

/-- `_hydrate_instruction` (`agents/supervisor.py`): context hydration.  The
value-sanity guard runs only for `search_agent` slots with at least one
collected entity value; it replaces the instruction by an `[ABORT]` directive
but does not by itself stop the dispatch.  Then agent-specific templates, the
generic context suffix, or the bare description. -/
def hydrateInstruction (s : Slot) (plan : List Slot) : String :=
  let cp := collectDeps plan s.dependencies
  let contextParts := cp.1
  let entityValues := cp.2
  let baseDesc := s.description
  match (if s.source_agent == "search_agent" && !entityValues.isEmpty then
          firstInvalidEntity entityValues
         else none) with
  | some fv => abortInstr fv.1 fv.2
  | none =>
    if s.source_agent == "search_agent" && !entityValues.isEmpty then
      match assocGet entityValues "hotel_name" with
      | some hv => "搜索酒店 \x27" ++ pyStr hv ++ "\x27 的评价、口碑和用户反馈"
      | none =>
        match assocGet entityValues "course_name" with
        | some cv => "搜索球场 \x27" ++ pyStr cv ++ "\x27 的攻略、难度评价和打球建议"
        | none =>
          if !contextParts.isEmpty then
            "搜索 " ++ strJoin ", " contextParts ++ " 的相关信息: " ++ baseDesc
          else baseDesc
    else if s.source_agent == "weather_agent" && !entityValues.isEmpty then
      let loc := pyOr (evGet entityValues "location") (evGet entityValues "destination")
      if pyTruthy loc then "查询 \x27" ++ pyStr loc ++ "\x27 的天气预报"
      else baseDesc
    else if !contextParts.isEmpty then
      baseDesc ++ " (上下文: " ++ strJoin ", " contextParts ++ ")"
    else baseDesc

-- ==================== agents/supervisor.py : _handle_worker_result ====================

/-- The failure-signal keywords of `_handle_worker_result`. -/
def failureKeywords : List String :=
  ["FAILURE", "MISSING_CAPABILITY", "失败", "无法获取", "Error"]

/-- Does the worker's message content match the failure-signal convention? -/
def isFailureMsg (content : String) : Bool :=
  failureKeywords.any (fun kw => containsStr content kw)

/-- The "acquired but unusable" sentinel stored when a nominally successful
worker left no extractable value. -/
def sentinelMsg (s : Slot) : String :=
  "[" ++ s.source_agent ++ "] 数据已获取，但无法提取 " ++ s.field_name

/-- The update `_handle_worker_result` emits for one `DISPATCHED` slot whose
`source_agent` matches the reporting message. -/
def workerSlotUpd (trip : TripData) (m : Msg) (s : Slot) : Option SlotUpd :=
  if s.status == DISPATCHED && m.name == some s.source_agent then
    if isFailureMsg m.content then
      some { id := s.id, status := some FAILED,
             value := some (some (.vstr ("失败: " ++ strTake m.content 100))) }
    else
      match extractReal trip s with
      | some rv =>
          if pyTruthy rv then
            some { id := s.id, status := some FILLED, value := some (some rv) }
          else
            some { id := s.id, status := some FILLED,
                   value := some (some (.vstr (sentinelMsg s))) }
      | none =>
          some { id := s.id, status := some FILLED,
                 value := some (some (.vstr (sentinelMsg s))) }
  else none

/-- `_handle_worker_result` (`agents/supervisor.py`): no message, no updates;
otherwise one update per matching `DISPATCHED` slot. -/
def handleWorkerResult (plan : List Slot) (trip : TripData) (msg : Option Msg) :
    List SlotUpd :=
  match msg with
  | none => []
  | some m => plan.filterMap (workerSlotUpd trip m)

-- ==================== agents/supervisor.py : supervisor_node ====================

/-- The update dict `{"id": ..., "status": "DISPATCHED"}` emitted on dispatch
(no `value` key). -/
def dispatchUpd (i : String) : SlotUpd :=
  { id := i, status := some DISPATCHED }

/-- The decision a `supervisor_node` invocation returns, one constructor per
`return` statement: the iteration-cap trip, the three terminal hand-offs to
the analyst (complete, deadlock, no runnable slot), or a dispatch of one slot
to a worker.  Terminal decisions carry the absorbed/synchronized plan updates
handed over with them; a dispatch additionally appends the `DISPATCHED`
marker. -/
inductive SupDecision where
  | capHit : SupDecision
  | complete : String → List SlotUpd → SupDecision
  | deadlock : String → List SlotUpd → SupDecision
  | noRunnable : List SlotUpd → SupDecision
  | dispatch : String → String → List SlotUpd → SupDecision

/-- `worker_updates + sync_updates`: everything a `supervisor_node` invocation
absorbs before deciding. -/
def absorbedUps (plan : List Slot) (trip : TripData) (lastMsg : Option Msg) :
    List SlotUpd :=
  handleWorkerResult plan trip lastMsg ++ syncWithTripData plan trip

/-- The in-node `updated_plan` view: the absorbed updates applied to the plan
(the node's simulation loop uses the same id-matching merge as the reducer's
incremental mode, with the id map built once from the unmodified plan). -/
def absorbedPlan (plan : List Slot) (trip : TripData) (lastMsg : Option Msg) :
    List Slot :=
  applyIncr plan (absorbedUps plan trip lastMsg)

/-- `supervisor_node` (`agents/supervisor.py`), as a pure decision function of
the inputs it reads: the iteration counter, the plan, `trip_data` and the
last message.  Mirrors the node body: safety threshold, worker-result
absorption, fact-store sync, the simulated in-node update application,
completion/deadlock check, slot selection, hydration, dispatch. -/
def supervisorDecision (iteration : Nat) (plan : List Slot) (trip : TripData)
    (lastMsg : Option Msg) : SupDecision :=
  if iteration ≥ 10 then .capHit
  else
    let allUps := absorbedUps plan trip lastMsg
    let updated := absorbedPlan plan trip lastMsg
    match checkCompletion updated with
    | (true, _, reason) => .complete reason allUps
    | (false, true, reason) => .deadlock reason allUps
    | (false, false, _) =>
      match findRunnableSlot updated with
      | none => .noRunnable allUps
      | some r =>
          .dispatch r.source_agent (hydrateInstruction r updated)
            (allUps ++ [dispatchUpd r.id])

/-- The `next_step` routing of a decision: every terminal decision routes to
the analyst (the Synthesis stage); a dispatch routes to the chosen worker. -/
def nextStepOf : SupDecision → String
  | .dispatch agent _ _ => agent
  | _ => "analyst"

/-- The `procurement_plan` update list a decision returns to the reducer. -/
def decisionUpdates : SupDecision → List SlotUpd
  | .capHit => []
  | .complete _ u => u
  | .deadlock _ u => u
  | .noRunnable u => u
  | .dispatch _ _ u => u

end GolfSched

namespace GolfSched

open SlotStatus

-- ==================== statement-level definitions ====================

/-- Truthiness of an optional extraction result (`if real_value:` where the
value may also be Python `None`). -/
def truthyOpt : Option Val → Bool
  | some v => pyTruthy v
  | none => false

/-- The status transitions the scheduler actually performs in a turn:
stay put, `PENDING → DISPATCHED` (dispatch), `PENDING → FILLED` (fact-store
resynchronization), `DISPATCHED → FILLED` and `DISPATCHED → FAILED`
(worker-result absorption).  Forward-only along
`PENDING < DISPATCHED < {FILLED, FAILED}`; terminal states never change. -/
def chainStep : SlotStatus → SlotStatus → Bool
  | a, b =>
    a == b || (a == PENDING && (b == DISPATCHED || b == FILLED)) ||
      (a == DISPATCHED && (b == FILLED || b == FAILED))

/-- The literal three-edge reading of the specified chain
`PENDING → DISPATCHED → {FILLED, FAILED}` (plus staying put): does not admit
the direct `PENDING → FILLED` edge. -/
def strictChainStep : SlotStatus → SlotStatus → Bool
  | a, b =>
    a == b || (a == PENDING && b == DISPATCHED) ||
      (a == DISPATCHED && (b == FILLED || b == FAILED))

/-- Is a value a Python list? -/
def isListVal : Val → Bool
  | .vlist _ => true
  | _ => false

end GolfSched


namespace GolfSched

open SlotStatus

-- ==================== concrete fixtures for witnesses ====================

/-- A filled hotel-name slot with no dependencies. -/
def fixFilledA : Slot :=
  { id := "a", field_name := "hotel_name", description := "获取酒店名称",
    source_agent := "hotel_agent", dependencies := [], status := FILLED,
    value := some (.vstr "Seaside Inn") }

/-- A pending review-search slot depending on `fixFilledA`. -/
def fixPendingB : Slot :=
  { id := "b", field_name := "reviews", description := "搜索酒店评价",
    source_agent := "search_agent", dependencies := ["a"], status := PENDING,
    value := none }

/-- First member of a two-slot dependency cycle (both `PENDING`). -/
def fixCycA : Slot :=
  { id := "ca", field_name := "f1", description := "cyc a",
    source_agent := "hotel_agent", dependencies := ["cb"], status := PENDING,
    value := none }

/-- Second member of the cycle. -/
def fixCycB : Slot :=
  { id := "cb", field_name := "f2", description := "cyc b",
    source_agent := "golf_agent", dependencies := ["ca"], status := PENDING,
    value := none }

/-- Is a value a record dict carrying an `"id"` key (the upsert-by-id case of
the list merge)? -/
def isRecordWithId : Val → Bool
  | .vdict fs => hasKey fs "id"
  | _ => false

/-- A pending hotel-name slot whose fact is already in the store. -/
def fixSyncSlot : Slot :=
  { id := "a", field_name := "hotel_name", description := "获取酒店名称",
    source_agent := "hotel_agent", dependencies := [], status := PENDING,
    value := none }

/-- A fact store already holding the hotel booking. -/
def fixSyncTrip : TripData :=
  [("hotel_bookings", .vlist [.vdict [("hotel_name", .vstr "Seaside Inn")]])]

/-- A dispatched search slot awaiting its worker's report. -/
def fixDispTips : Slot :=
  { id := "t", field_name := "tips", description := "搜索球场攻略",
    source_agent := "search_agent", dependencies := [], status := DISPATCHED,
    value := none }

/-- A filled location slot holding the placeholder token `未知`. -/
def fixLocSlot : Slot :=
  { id := "a", field_name := "location", description := "获取地点",
    source_agent := "itinerary_agent", dependencies := [], status := FILLED,
    value := some (.vstr "未知") }

/-- A pending weather slot depending on the placeholder-valued location. -/
def fixWeatherSlot : Slot :=
  { id := "w", field_name := "weather", description := "查询天气",
    source_agent := "weather_agent", dependencies := ["a"], status := PENDING,
    value := none }

/-- A filled hotel slot holding the placeholder name `未知酒店`. -/
def fixBadHotel : Slot :=
  { id := "a", field_name := "hotel_name", description := "获取酒店名称",
    source_agent := "hotel_agent", dependencies := [], status := FILLED,
    value := some (.vstr "未知酒店") }

/-- A pending review-search slot depending on the placeholder-valued hotel. -/
def fixSearch : Slot :=
  { id := "s", field_name := "reviews", description := "搜索酒店评价",
    source_agent := "search_agent", dependencies := ["a"], status := PENDING,
    value := none }

/-- A dispatched hotel-name slot whose worker is about to report failure. -/
def fixDupA : Slot :=
  { id := "a", field_name := "hotel_name", description := "获取酒店名称",
    source_agent := "hotel_agent", dependencies := [], status := DISPATCHED,
    value := none }

/-- A second pending slot for the same worker and the same target field. -/
def fixDupB : Slot :=
  { id := "b", field_name := "hotel_name", description := "获取酒店名称",
    source_agent := "hotel_agent", dependencies := [], status := PENDING,
    value := none }

/-- The failure report of the hotel worker. -/
def fixFailMsg : Msg :=
  { name := some "hotel_agent", content := "FAILURE: 无法获取" }

/-- A generator spec with a dangling dependency (`ghost` names no slot). -/
def fixDangleSpec : DataSlotSpec :=
  { id := "x", field_name := "reviews", description := "搜索评价",
    source_agent := "search_agent", dependencies := ["ghost"] }

/-- The slot the planner builds from the dangling spec. -/
def fixDangleSlot : Slot :=
  { id := "x", field_name := "reviews", description := "搜索评价",
    source_agent := "search_agent", dependencies := ["ghost"], status := PENDING,
    value := none }

/-- A dependency-free pending slot next to the dangling one. -/
def fixPendingC : Slot :=
  { id := "c", field_name := "tee_time", description := "获取开球时间",
    source_agent := "golf_agent", dependencies := [], status := PENDING,
    value := none }

/-- Two well-formed slots sharing one id. -/
def fixDupId1 : Slot :=
  { id := "d", field_name := "tee_time", description := "获取开球时间",
    source_agent := "golf_agent", dependencies := [], status := PENDING,
    value := none }

/-- The second slot with the duplicated id. -/
def fixDupId2 : Slot :=
  { id := "d", field_name := "course_name", description := "获取球场名称",
    source_agent := "golf_agent", dependencies := [], status := PENDING,
    value := none }

/-- Does the reducer route update `u` to index `k` of plan `p`?  (Truthy id
found in the id map built from `p`.) -/
def targets (p : List Slot) (u : SlotUpd) (k : Nat) : Bool :=
  u.id != "" && idToIdx p u.id == some k

end GolfSched

namespace GolfSched

open SlotStatus

-- ==================== shared helper lemmas ====================

/-- Characterization of `List.find?` as first match: the found element splits
the list with an all-failing prefix. -/
theorem find_first_char {α : Type} (p : α → Bool) (l : List α) (x : α) :
    l.find? p = some x ↔
      ∃ l1 l2, l = l1 ++ x :: l2 ∧ p x = true ∧ ∀ y ∈ l1, p y = false := by
  induction l with
  | nil => simp
  | cons a as ih =>
    rw [List.find?_cons]
    by_cases h : p a
    · simp only [h, Option.some.injEq]
      constructor
      · rintro rfl
        exact ⟨[], as, rfl, h, by simp⟩
      · rintro ⟨l1, l2, heq, hx, hall⟩
        cases l1 with
        | nil =>
          simp only [List.nil_append, List.cons.injEq] at heq
          exact heq.1
        | cons b bs =>
          simp only [List.cons_append, List.cons.injEq] at heq
          have hb := hall b (by simp)
          rw [← heq.1] at hb
          rw [h] at hb
          cases hb
    · simp only [h]
      rw [ih]
      constructor
      · rintro ⟨l1, l2, rfl, hx, hall⟩
        refine ⟨a :: l1, l2, rfl, hx, ?_⟩
        intro y hy
        rcases List.mem_cons.mp hy with rfl | hy2
        · simpa using h
        · exact hall y hy2
      · rintro ⟨l1, l2, heq, hx, hall⟩
        cases l1 with
        | nil =>
          simp only [List.nil_append, List.cons.injEq] at heq
          rw [heq.1] at h
          rw [hx] at h
          cases h rfl
        | cons b bs =>
          simp only [List.cons_append, List.cons.injEq] at heq
          refine ⟨bs, l2, heq.2, hx, ?_⟩
          intro y hy
          exact hall y (by simp [hy])

/-- The completion flag of `_check_completion`, in terms of status counts. -/
theorem checkCompletion_fst_iff (p : List Slot) :
    (checkCompletion p).1 = true ↔
      p.countP (fun s => s.status == PENDING) = 0 ∧
        p.countP (fun s => s.status == DISPATCHED) = 0 := by
  unfold checkCompletion
  split
  next h =>
    rw [List.isEmpty_iff] at h
    subst h
    simp
  next h =>
    split
    next hfind =>
      dsimp only
      split
      next hc =>
        simp only [Bool.and_eq_true, beq_iff_eq] at hc
        simp [hc.1, hc.2]
      next hc =>
        split
        next hd =>
          simp only [Bool.false_eq_true, false_iff]
          intro hcon
          exact hc (by simp [hcon.1, hcon.2])
        next hd =>
          simp only [Bool.false_eq_true, false_iff]
          intro hcon
          exact hc (by simp [hcon.1, hcon.2])
    next r hfind =>
      dsimp only
      split
      next hc =>
        simp only [Bool.and_eq_true, beq_iff_eq] at hc
        simp [hc.1, hc.2]
      next hc =>
        simp only [Bool.false_eq_true, false_iff]
        intro hcon
        exact hc (by simp [hcon.1, hcon.2])

/-- The deadlock flag of `_check_completion`: no runnable slot, some slot
still `PENDING`, none `DISPATCHED`. -/
theorem checkCompletion_snd_iff (p : List Slot) :
    (checkCompletion p).2.1 = true ↔
      findRunnableSlot p = none ∧
        0 < p.countP (fun s => s.status == PENDING) ∧
        p.countP (fun s => s.status == DISPATCHED) = 0 := by
  unfold checkCompletion
  split
  next h =>
    rw [List.isEmpty_iff] at h
    subst h
    simp
  next h =>
    split
    next hfind =>
      dsimp only
      split
      next hc =>
        simp only [Bool.and_eq_true, beq_iff_eq] at hc
        simp only [Bool.false_eq_true, false_iff, not_and_or]
        right
        left
        omega
      next hc =>
        split
        next hd =>
          simp only [Bool.and_eq_true, decide_eq_true_eq, beq_iff_eq] at hd
          simp [hfind, hd.1, hd.2]
        next hd =>
          simp only [Bool.and_eq_true, decide_eq_true_eq, beq_iff_eq, not_and_or] at hd
          simp only [Bool.false_eq_true, false_iff, not_and_or]
          rcases hd with hd | hd
          · right; left; omega
          · right; right; exact hd
    next r hfind =>
      dsimp only
      constructor
      · intro hLHS
        exfalso
        split at hLHS <;> simp at hLHS
      · rintro ⟨hnone, -⟩
        rw [hfind] at hnone
        simp at hnone

end GolfSched

namespace GolfSched

open SlotStatus

/-- Below the iteration cap, a `supervisor_node` invocation decides from the
completion check and slot selection over the absorbed plan view. -/
theorem supervisorDecision_lt (i : Nat) (plan : List Slot) (trip : TripData)
    (msg : Option Msg) (h : i < 10) :
    supervisorDecision i plan trip msg =
      (match checkCompletion (absorbedPlan plan trip msg) with
       | (true, _, reason) => .complete reason (absorbedUps plan trip msg)
       | (false, true, reason) => .deadlock reason (absorbedUps plan trip msg)
       | (false, false, _) =>
         match findRunnableSlot (absorbedPlan plan trip msg) with
         | none => .noRunnable (absorbedUps plan trip msg)
         | some r =>
             .dispatch r.source_agent (hydrateInstruction r (absorbedPlan plan trip msg))
               (absorbedUps plan trip msg ++ [dispatchUpd r.id])) := by
  unfold supervisorDecision
  rw [if_neg (by omega)]

/-- At or above the cap, the invocation trips the safety threshold at once. -/
theorem supervisorDecision_cap (i : Nat) (plan : List Slot) (trip : TripData)
    (msg : Option Msg) (h : 10 ≤ i) :
    supervisorDecision i plan trip msg = .capHit := by
  unfold supervisorDecision
  rw [if_pos h]

/-- Absorbing over an empty plan produces no updates and an empty view. -/
theorem absorbed_empty (trip : TripData) (msg : Option Msg) :
    absorbedUps [] trip msg = [] ∧ absorbedPlan [] trip msg = [] := by
  have hu : absorbedUps [] trip msg = [] := by
    cases msg <;> simp [absorbedUps, handleWorkerResult, syncWithTripData]
  exact ⟨hu, by simp [absorbedPlan, hu, applyIncr]⟩

/-- `findRunnableSlot` finds nothing exactly when every `PENDING` slot has an
unsatisfied dependency. -/
theorem findRunnableSlot_eq_none_iff (p : List Slot) :
    findRunnableSlot p = none ↔
      ∀ s ∈ p, s.status = PENDING → s.dependencies.all (depFilled p) = false := by
  rw [findRunnableSlot, List.find?_eq_none]
  constructor
  · intro hall s hs hp
    have h2 := hall s hs
    simp only [runnableB, hp, beq_self_eq_true, Bool.true_and, Bool.not_eq_true] at h2
    exact h2
  · intro hall s hs
    simp only [runnableB, Bool.not_eq_true, Bool.and_eq_false_iff]
    by_cases hp : s.status = PENDING
    · right; exact hall s hs hp
    · left
      simpa [beq_eq_false_iff_ne] using hp

end GolfSched

namespace GolfSched
open SlotStatus

/-- C1 (turn-termination decision): below the iteration cap, after absorbing
the last worker result and resynchronizing against the fact store, an
invocation hands the turn to Synthesis with the COMPLETE/success reason
exactly when no slot of the absorbed plan view is `PENDING` or `DISPATCHED`
(in particular an empty plan completes immediately), and with the deadlock
reason exactly when `PENDING` slots remain, none is `DISPATCHED`, and no
`PENDING` slot has all dependencies `FILLED`; both terminal decisions route
to the analyst carrying the absorbed partial updates. -/
theorem c1_turn_termination (i : Nat) (plan : List Slot) (trip : TripData)
    (msg : Option Msg) (hi : i < 10) :
    ((∃ r u, supervisorDecision i plan trip msg = .complete r u) ↔
       ∀ s ∈ absorbedPlan plan trip msg,
         s.status ≠ PENDING ∧ s.status ≠ DISPATCHED) ∧
    ((∃ r u, supervisorDecision i plan trip msg = .deadlock r u) ↔
       ((∃ s ∈ absorbedPlan plan trip msg, s.status = PENDING) ∧
        (∀ s ∈ absorbedPlan plan trip msg, s.status ≠ DISPATCHED) ∧
        (∀ s ∈ absorbedPlan plan trip msg, s.status = PENDING →
           s.dependencies.all (depFilled (absorbedPlan plan trip msg)) = false))) ∧
    (plan = [] → supervisorDecision i plan trip msg = .complete "采购计划为空" []) ∧
    (∀ r u, supervisorDecision i plan trip msg = .complete r u ∨
        supervisorDecision i plan trip msg = .deadlock r u →
      nextStepOf (supervisorDecision i plan trip msg) = "analyst" ∧
        u = absorbedUps plan trip msg) := by
  have hD := supervisorDecision_lt i plan trip msg hi
  have hfst := checkCompletion_fst_iff (absorbedPlan plan trip msg)
  have hsnd := checkCompletion_snd_iff (absorbedPlan plan trip msg)
  have hempty : plan = [] →
      supervisorDecision i plan trip msg = .complete "采购计划为空" [] := by
    rintro rfl
    rcases absorbed_empty trip msg with ⟨hu, hp⟩
    rw [hD, hp, hu]
    rfl
  rcases hcc : checkCompletion (absorbedPlan plan trip msg) with ⟨b1, b2, r⟩
  rw [hcc] at hD hfst hsnd
  simp only at hfst hsnd
  have hPendIff : (∀ s ∈ absorbedPlan plan trip msg,
      s.status ≠ PENDING ∧ s.status ≠ DISPATCHED) ↔
      ((absorbedPlan plan trip msg).countP (fun s => s.status == PENDING) = 0 ∧
       (absorbedPlan plan trip msg).countP (fun s => s.status == DISPATCHED) = 0) := by
    rw [List.countP_eq_zero, List.countP_eq_zero]
    constructor
    · intro h
      exact ⟨fun s hs => by simpa using (h s hs).1, fun s hs => by simpa using (h s hs).2⟩
    · intro h s hs
      exact ⟨by simpa using h.1 s hs, by simpa using h.2 s hs⟩
  have hDeadIff :
      (findRunnableSlot (absorbedPlan plan trip msg) = none ∧
        0 < (absorbedPlan plan trip msg).countP (fun s => s.status == PENDING) ∧
        (absorbedPlan plan trip msg).countP (fun s => s.status == DISPATCHED) = 0) ↔
      ((∃ s ∈ absorbedPlan plan trip msg, s.status = PENDING) ∧
       (∀ s ∈ absorbedPlan plan trip msg, s.status ≠ DISPATCHED) ∧
       (∀ s ∈ absorbedPlan plan trip msg, s.status = PENDING →
          s.dependencies.all (depFilled (absorbedPlan plan trip msg)) = false)) := by
    rw [findRunnableSlot_eq_none_iff, List.countP_pos_iff, List.countP_eq_zero]
    constructor
    · rintro ⟨hnone, ⟨s, hs, hps⟩, hnd⟩
      refine ⟨⟨s, hs, by simpa using hps⟩, fun t ht => by simpa using hnd t ht, hnone⟩
    · rintro ⟨⟨s, hs, hps⟩, hnd, hnone⟩
      exact ⟨hnone, ⟨s, hs, by simpa using hps⟩, fun t ht => by simpa using hnd t ht⟩
  cases b1 with
  | true =>
    simp only at hD
    refine ⟨?_, ?_, hempty, ?_⟩
    · rw [← hPendIff] at hfst
      constructor
      · intro _
        exact hfst.mp rfl
      · intro _
        exact ⟨r, absorbedUps plan trip msg, hD⟩
    · constructor
      · rintro ⟨r', u', heq⟩
        rw [hD] at heq
        cases heq
      · rintro ⟨⟨s, hs, hps⟩, -, -⟩
        have h0 := hfst.mp rfl
        have := (hPendIff.mpr h0) s hs
        exact absurd hps this.1
    · intro r' u' hor
      rcases hor with heq | heq
      · rw [hD] at heq
        cases heq
        exact ⟨by rw [hD]; rfl, rfl⟩
      · rw [hD] at heq
        cases heq
  | false =>
    cases b2 with
    | true =>
      simp only at hD
      have hdl := hsnd.mp rfl
      refine ⟨?_, ?_, hempty, ?_⟩
      · constructor
        · rintro ⟨r', u', heq⟩
          rw [hD] at heq
          cases heq
        · intro hall
          have hft := hfst.mpr (hPendIff.mp hall)
          simp at hft
      · constructor
        · rintro ⟨r', u', heq⟩
          exact hDeadIff.mp hdl
        · intro _
          exact ⟨r, absorbedUps plan trip msg, hD⟩
      · intro r' u' hor
        rcases hor with heq | heq
        · rw [hD] at heq
          cases heq
        · rw [hD] at heq
          cases heq
          exact ⟨by rw [hD]; rfl, rfl⟩
    | false =>
      have hnotfst : ¬ ((absorbedPlan plan trip msg).countP (fun s => s.status == PENDING) = 0 ∧
          (absorbedPlan plan trip msg).countP (fun s => s.status == DISPATCHED) = 0) := by
        intro hcon
        have : False := by
          have := hfst.mpr hcon
          cases this
        exact this
      have hnotsnd : ¬ (findRunnableSlot (absorbedPlan plan trip msg) = none ∧
          0 < (absorbedPlan plan trip msg).countP (fun s => s.status == PENDING) ∧
          (absorbedPlan plan trip msg).countP (fun s => s.status == DISPATCHED) = 0) := by
        intro hcon
        have := hsnd.mpr hcon
        cases this
      have hnotdec : ∀ r' u', supervisorDecision i plan trip msg ≠ .complete r' u' ∧
          supervisorDecision i plan trip msg ≠ .deadlock r' u' := by
        intro r' u'
        rw [hD]
        cases hf : findRunnableSlot (absorbedPlan plan trip msg) <;>
          simp only [hf] <;> exact ⟨(fun h => nomatch h), (fun h => nomatch h)⟩
      refine ⟨?_, ?_, hempty, ?_⟩
      · constructor
        · rintro ⟨r', u', heq⟩
          exact absurd heq (hnotdec r' u').1
        · intro hall
          exact absurd (hPendIff.mp hall) hnotfst
      · constructor
        · rintro ⟨r', u', heq⟩
          exact absurd heq (hnotdec r' u').2
        · intro hrhs
          exact absurd (hDeadIff.mpr hrhs) hnotsnd
      · intro r' u' hor
        rcases hor with heq | heq
        · exact absurd heq (hnotdec r' u').1
        · exact absurd heq (hnotdec r' u').2

/-- Witness for C1 at a concrete input: the zero-slot plan immediately
reports COMPLETE. -/
theorem c1_turn_termination_witness :
    supervisorDecision 0 [] [] none = .complete "采购计划为空" [] :=
  (c1_turn_termination 0 [] [] none (by decide)).2.2.1 rfl

end GolfSched

namespace GolfSched
open SlotStatus

/-- C2 (slot selection): `_find_runnable_slot` returns exactly the first slot
in plan order that is `PENDING` with every dependency `FILLED` (dependency
status resolved through the plan's id map, so a dependency id absent from the
plan is never `FILLED`); a selected slot has every dependency resolved to a
`FILLED` slot, hence a slot with an unfilled or dangling dependency is never
selected; the decision function is pure, so re-running it on an identical
snapshot yields the identical decision; and every dispatch decision carries
exactly the selected slot's agent, hydrated instruction and update list. -/
theorem c2_slot_selection (plan : List Slot) :
    (∀ s, findRunnableSlot plan = some s ↔
       ∃ l1 l2, plan = l1 ++ s :: l2 ∧ runnableB plan s = true ∧
         ∀ t ∈ l1, runnableB plan t = false) ∧
    (∀ s d, findRunnableSlot plan = some s → d ∈ s.dependencies →
       ∃ t, slotLookup plan d = some t ∧ t.status = FILLED) ∧
    (∀ i trip msg, supervisorDecision i plan trip msg = supervisorDecision i plan trip msg) ∧
    (∀ i trip msg a instr u, i < 10 →
       supervisorDecision i plan trip msg = .dispatch a instr u →
       ∃ s, findRunnableSlot (absorbedPlan plan trip msg) = some s ∧
         a = s.source_agent ∧
         instr = hydrateInstruction s (absorbedPlan plan trip msg) ∧
         u = absorbedUps plan trip msg ++ [dispatchUpd s.id]) := by
  refine ⟨?_, ?_, fun _ _ _ => rfl, ?_⟩
  · intro s
    exact find_first_char (runnableB plan) plan s
  · intro s d hfind hd
    have hrun := List.find?_some hfind
    simp only [runnableB, Bool.and_eq_true, List.all_eq_true] at hrun
    have hdf := hrun.2 d hd
    unfold depFilled at hdf
    cases hl : slotLookup plan d with
    | none => rw [hl] at hdf; cases hdf
    | some t =>
        rw [hl] at hdf
        exact ⟨t, rfl, by simpa using hdf⟩
  · intro i trip msg a instr u hi heq
    rw [supervisorDecision_lt i plan trip msg hi] at heq
    rcases hcc : checkCompletion (absorbedPlan plan trip msg) with ⟨b1, b2, r⟩
    rw [hcc] at heq
    cases b1 with
    | true => simp only at heq; cases heq
    | false =>
      cases b2 with
      | true => simp only at heq; cases heq
      | false =>
        simp only at heq
        cases hf : findRunnableSlot (absorbedPlan plan trip msg) with
        | none => rw [hf] at heq; cases heq
        | some rr =>
            rw [hf] at heq
            cases heq
            exact ⟨rr, rfl, rfl, rfl, rfl⟩

/-- Witness for C2 at a concrete input: the selected review slot's single
dependency resolves to the filled hotel slot. -/
theorem c2_slot_selection_witness :
    ∃ t, slotLookup [fixFilledA, fixPendingB] "a" = some t ∧ t.status = FILLED :=
  (c2_slot_selection [fixFilledA, fixPendingB]).2.1 fixPendingB "a" rfl
    (by simp [fixPendingB])

end GolfSched

namespace GolfSched
open SlotStatus

/-- C3 (bounded termination): once the turn iteration counter reaches the
bound 10 the invocation terminates with the cap decision regardless of plan
state, routing to the analyst; slots on a dependency cycle (a nonempty set of
`PENDING` slots each depending on a member of the set, resolved through the
plan's id map) are never eligible for dispatch; and when the absorbed plan
view is nonempty, entirely `PENDING` and cycle-covered, a single invocation
below the cap terminates the turn with the deadlock decision — one pass, no
looping. -/
theorem c3_bounded_termination :
    (∀ i plan trip msg, 10 ≤ i → supervisorDecision i plan trip msg = .capHit ∧
       nextStepOf (supervisorDecision i plan trip msg) = "analyst") ∧
    (∀ (plan c : List Slot), (∀ s ∈ c, s.status = PENDING) →
       (∀ s ∈ c, ∃ t ∈ c, t.id ∈ s.dependencies ∧ slotLookup plan t.id = some t) →
       ∀ s ∈ c, runnableB plan s = false) ∧
    (∀ i plan trip msg, i < 10 → absorbedPlan plan trip msg ≠ [] →
       (∀ s ∈ absorbedPlan plan trip msg, s.status = PENDING) →
       (∀ s ∈ absorbedPlan plan trip msg, ∃ t ∈ absorbedPlan plan trip msg,
          t.id ∈ s.dependencies ∧ slotLookup (absorbedPlan plan trip msg) t.id = some t) →
       ∃ r u, supervisorDecision i plan trip msg = .deadlock r u) := by
  have hnr : ∀ (plan c : List Slot), (∀ s ∈ c, s.status = PENDING) →
      (∀ s ∈ c, ∃ t ∈ c, t.id ∈ s.dependencies ∧ slotLookup plan t.id = some t) →
      ∀ s ∈ c, runnableB plan s = false := by
    intro plan c hpend hcyc s hs
    by_contra hne
    have hrun : runnableB plan s = true := by
      revert hne
      cases runnableB plan s <;> simp
    simp only [runnableB, Bool.and_eq_true, List.all_eq_true] at hrun
    obtain ⟨t, htc, htd, htl⟩ := hcyc s hs
    have hdf := hrun.2 t.id htd
    unfold depFilled at hdf
    rw [htl] at hdf
    have : t.status = FILLED := by simpa using hdf
    rw [hpend t htc] at this
    cases this
  refine ⟨?_, hnr, ?_⟩
  · intro i plan trip msg hi
    have h := supervisorDecision_cap i plan trip msg hi
    exact ⟨h, by rw [h]; rfl⟩
  · intro i plan trip msg hi hne hpend hcyc
    have hfindnone : findRunnableSlot (absorbedPlan plan trip msg) = none := by
      rw [findRunnableSlot_eq_none_iff]
      intro s hs hp
      have h := hnr (absorbedPlan plan trip msg) (absorbedPlan plan trip msg) hpend hcyc s hs
      simp only [runnableB, hp, beq_self_eq_true, Bool.true_and] at h
      exact h
    have hcnt0 : (absorbedPlan plan trip msg).countP (fun s => s.status == DISPATCHED) = 0 := by
      rw [List.countP_eq_zero]
      intro s hs
      simp [hpend s hs]
    have hcntpos : 0 < (absorbedPlan plan trip msg).countP (fun s => s.status == PENDING) := by
      rw [List.countP_pos_iff]
      obtain ⟨s, hs⟩ := List.exists_mem_of_ne_nil _ hne
      exact ⟨s, hs, by simp [hpend s hs]⟩
    have hsnd := (checkCompletion_snd_iff (absorbedPlan plan trip msg)).mpr
      ⟨hfindnone, hcntpos, hcnt0⟩
    have hfstf : (checkCompletion (absorbedPlan plan trip msg)).1 = false := by
      cases hf : (checkCompletion (absorbedPlan plan trip msg)).1 with
      | false => rfl
      | true =>
        have := (checkCompletion_fst_iff (absorbedPlan plan trip msg)).mp hf
        omega
    have hD := supervisorDecision_lt i plan trip msg hi
    rcases hcc : checkCompletion (absorbedPlan plan trip msg) with ⟨b1, b2, r⟩
    rw [hcc] at hD hsnd hfstf
    simp only at hsnd hfstf
    subst hsnd
    subst hfstf
    exact ⟨r, absorbedUps plan trip msg, hD⟩

/-- Witness for C3 at a concrete input: a two-slot cyclic plan deadlocks in
the first pass. -/
theorem c3_bounded_termination_witness :
    ∃ r u, supervisorDecision 0 [fixCycA, fixCycB] [] none = .deadlock r u := by
  have habs : absorbedPlan [fixCycA, fixCycB] [] none = [fixCycA, fixCycB] := rfl
  apply c3_bounded_termination.2.2 0 [fixCycA, fixCycB] [] none (by decide)
  · rw [habs]
    simp
  · rw [habs]
    intro s hs
    rcases List.mem_cons.mp hs with rfl | hs2
    · rfl
    · rcases List.mem_cons.mp hs2 with rfl | hs3
      · rfl
      · cases hs3
  · rw [habs]
    intro s hs
    rcases List.mem_cons.mp hs with rfl | hs2
    · exact ⟨fixCycB, by simp, by simp [fixCycA, fixCycB], rfl⟩
    · rcases List.mem_cons.mp hs2 with rfl | hs3
      · exact ⟨fixCycA, by simp, by simp [fixCycA, fixCycB], rfl⟩
      · cases hs3

end GolfSched

namespace GolfSched
open SlotStatus

/-- The `BEq` instance on values is `Val.beq`. -/
theorem beq_val_eq (a b : Val) : (a == b) = Val.beq a b := rfl

/-- Setting a key then reading it back yields the written value. -/
theorem assocGet_dictSet_self (fs : List (String × Val)) (k : String) (v : Val) :
    assocGet (dictSet fs k v) k = some v := by
  induction fs with
  | nil => simp [dictSet, assocGet]
  | cons kv rest ih =>
    rcases kv with ⟨k2, v2⟩
    unfold dictSet
    by_cases h : k2 == k
    · rw [if_pos h]
      simp [assocGet]
    · rw [if_neg h]
      have hkk : (k2 == k) = false := by simpa using h
      simp only [assocGet, List.find?_cons, hkk] at ih ⊢
      exact ih

/-- C5 (fact-store merge semantics): a non-list update value overwrites the
key; a list-of-records update upserts by `id` (field-level merge into the
matched record on a hit, append on a miss), as on the claim's concrete
example; and a plain scalar list item is appended only if absent (set
semantics). -/
theorem c5_merge_semantics :
    (∀ (cur : TripData) (k : String) (v : Val), isListVal v = false →
       assocGet (merge_trip_data cur [(k, v)]) k = some v) ∧
    (merge_trip_data
        [("golf_bookings", .vlist [.vdict [("id", .vstr "x"), ("a", .vint 0), ("b", .vint 2)]])]
        [("golf_bookings", .vlist [.vdict [("id", .vstr "x"), ("a", .vint 1)]])] =
      [("golf_bookings", .vlist [.vdict [("id", .vstr "x"), ("a", .vint 1), ("b", .vint 2)]])]) ∧
    (∀ (es : List Val) (fields : List (String × Val)) (i : Nat),
       hasKey fields "id" = true →
       idxLookup (buildIdMap es) (dictGetD fields "id" .vnull) = some i →
       mergeLists es [.vdict fields] =
         modifyIdx (fun x => match x with
           | .vdict f2 => .vdict (dictUpdate f2 fields)
           | other => other) es i) ∧
    (∀ (es : List Val) (fields : List (String × Val)),
       hasKey fields "id" = true →
       idxLookup (buildIdMap es) (dictGetD fields "id" .vnull) = none →
       mergeLists es [.vdict fields] = es ++ [.vdict fields]) ∧
    (∀ (es : List Val) (x : Val), isRecordWithId x = false →
       mergeLists es [x] = if es.contains x then es else es ++ [x]) := by
  refine ⟨?_, ?_, ?_, ?_, ?_⟩
  · intro cur k v hv
    cases v with
    | vlist xs => cases hv
    | vnull => exact assocGet_dictSet_self cur k _
    | vbool b => exact assocGet_dictSet_self cur k _
    | vint n => exact assocGet_dictSet_self cur k _
    | vstr s => exact assocGet_dictSet_self cur k _
    | vdict fs => exact assocGet_dictSet_self cur k _
  · have hx : (Val.vstr "x" == Val.vstr "x") = true := by
      simp [beq_val_eq, Val.beq]
    simp [merge_trip_data, mergeLists, mergeListStep, buildIdMap, idxLookup,
      dictUpdate, dictSet, hasKey, dictGetD, assocGet, hx, modifyIdx]
  · intro es fields i h1 h2
    simp [mergeLists, mergeListStep, h1, h2]
  · intro es fields h1 h2
    simp [mergeLists, mergeListStep, h1, h2]
  · intro es x hx
    cases x with
    | vdict fs =>
      simp only [isRecordWithId] at hx
      simp only [mergeLists, List.foldl_cons, List.foldl_nil, mergeListStep, hx,
        Bool.false_eq_true, if_false]
      split <;> rfl
    | vnull =>
      simp only [mergeLists, List.foldl_cons, List.foldl_nil, mergeListStep]
      split <;> rfl
    | vbool b =>
      simp only [mergeLists, List.foldl_cons, List.foldl_nil, mergeListStep]
      split <;> rfl
    | vint n =>
      simp only [mergeLists, List.foldl_cons, List.foldl_nil, mergeListStep]
      split <;> rfl
    | vstr s =>
      simp only [mergeLists, List.foldl_cons, List.foldl_nil, mergeListStep]
      split <;> rfl
    | vlist xs =>
      simp only [mergeLists, List.foldl_cons, List.foldl_nil, mergeListStep]
      split <;> rfl

/-- Witness for C5 at concrete inputs: a scalar string overwrites, and a new
record id is appended. -/
theorem c5_merge_semantics_witness :
    assocGet (merge_trip_data [] [("hotel_name", .vstr "Seaside Inn")]) "hotel_name" =
        some (.vstr "Seaside Inn") ∧
      mergeLists [.vdict [("id", .vstr "x")]] [.vdict [("id", .vstr "y")]] =
        [.vdict [("id", .vstr "x")], .vdict [("id", .vstr "y")]] :=
  ⟨c5_merge_semantics.1 [] "hotel_name" (.vstr "Seaside Inn") rfl,
   c5_merge_semantics.2.2.2.1 [.vdict [("id", .vstr "x")]] [("id", .vstr "y")] (by rfl)
     (by simp [idxLookup, buildIdMap, dictGetD, assocGet, hasKey, beq_val_eq, Val.beq])⟩

end GolfSched

namespace GolfSched
open SlotStatus

/-- An id found by `idToIdx` points at an in-range slot carrying that id. -/
theorem idToIdx_some (p : List Slot) (i : String) (k : Nat)
    (h : idToIdx p i = some k) : ∃ s, p[k]? = some s ∧ s.id = i := by
  induction p generalizing k with
  | nil => cases h
  | cons a rest ih =>
    unfold idToIdx at h
    cases h' : idToIdx rest i with
    | some k2 =>
      rw [h'] at h
      cases h
      obtain ⟨s, hs, hid⟩ := ih k2 h'
      exact ⟨s, by simpa using hs, hid⟩
    | none =>
      rw [h'] at h
      by_cases ha : a.id == i
      · rw [if_pos ha] at h
        cases h
        exact ⟨a, by simp, by simpa using ha⟩
      · rw [if_neg ha] at h
        cases h

/-- `idToIdx` misses exactly the ids carried by no slot. -/
theorem idToIdx_none_iff (p : List Slot) (i : String) :
    idToIdx p i = none ↔ ∀ s ∈ p, s.id ≠ i := by
  induction p with
  | nil => simp [idToIdx]
  | cons a rest ih =>
    unfold idToIdx
    cases h' : idToIdx rest i with
    | some k2 =>
      simp only [reduceCtorEq, false_iff, not_forall]
      have hne : ¬ (∀ s ∈ rest, s.id ≠ i) := by
        rw [← ih]
        simp [h']
      push_neg at hne
      obtain ⟨s, hs, hid⟩ := hne
      exact ⟨s, by simp [hs], by simpa using hid⟩
    | none =>
      by_cases ha : a.id == i
      · rw [if_pos ha]
        simp only [reduceCtorEq, false_iff, not_forall]
        exact ⟨a, by simp, by simpa using ha⟩
      · rw [if_neg ha]
        simp only [true_iff]
        intro s hs
        rcases List.mem_cons.mp hs with rfl | hs2
        · simpa using ha
        · exact (ih.mp h') s hs2

/-- Under unique ids, `idToIdx` inverts indexing. -/
theorem idToIdx_nodup (p : List Slot) (hnd : (p.map Slot.id).Nodup) (k : Nat)
    (s : Slot) (hk : p[k]? = some s) : idToIdx p s.id = some k := by
  induction p generalizing k with
  | nil => cases hk
  | cons a rest ih =>
    simp only [List.map_cons, List.nodup_cons] at hnd
    cases k with
    | zero =>
      simp only [List.getElem?_cons_zero, Option.some.injEq] at hk
      subst hk
      unfold idToIdx
      have hnone : idToIdx rest a.id = none := by
        rw [idToIdx_none_iff]
        intro t ht hteq
        have hmem : t.id ∈ rest.map (fun x => x.id) := List.mem_map_of_mem (fun x => x.id) ht
        rw [hteq] at hmem
        exact hnd.1 hmem
      rw [hnone, if_pos (by simp)]
    | succ k2 =>
      simp only [List.getElem?_cons_succ] at hk
      unfold idToIdx
      rw [ih hnd.2 k2 hk]

/-- Modifying one index keeps the length. -/
theorem length_modifySlot (f : Slot → Slot) (l : List Slot) (k : Nat) :
    (modifySlot f l k).length = l.length := by
  induction l generalizing k with
  | nil => rfl
  | cons a rest ih =>
    cases k with
    | zero => rfl
    | succ k2 => simpa [modifySlot] using ih k2

/-- Reading back after modifying one index. -/
theorem getElem?_modifySlot (f : Slot → Slot) (l : List Slot) (k j : Nat) :
    (modifySlot f l k)[j]? = if j = k then (l[j]?).map f else l[j]? := by
  induction l generalizing k j with
  | nil => simp [modifySlot]
  | cons a rest ih =>
    cases k with
    | zero =>
      cases j with
      | zero => simp [modifySlot]
      | succ j2 => simp [modifySlot]
    | succ k2 =>
      cases j with
      | zero => simp [modifySlot]
      | succ j2 =>
        simp only [modifySlot, List.getElem?_cons_succ]
        rw [ih k2 j2]
        by_cases h : j2 = k2
        · simp [h]
        · simp [h]

/-- Unpacking the routing test. -/
theorem targets_iff (p : List Slot) (u : SlotUpd) (k : Nat) :
    targets p u k = true ↔ u.id ≠ "" ∧ idToIdx p u.id = some k := by
  simp [targets]

/-- Folding the reducer over updates, read back at one index: the slot there
receives, in order, exactly the updates routed to that index. -/
theorem applyIncr_fold_aux (p : List Slot) (k : Nat) :
    ∀ (us : List SlotUpd) (acc : List Slot),
      (us.foldl (fun acc u =>
        if u.id ≠ "" then
          match idToIdx p u.id with
          | some k2 => modifySlot (fun s => applyUpd s u) acc k2
          | none => acc
        else acc) acc)[k]? =
      (acc[k]?).map (fun s => (us.filter (fun u => targets p u k)).foldl applyUpd s) := by
  intro us
  induction us with
  | nil =>
    intro acc
    simp only [List.foldl_nil, List.filter_nil]
    cases hk : acc[k]? <;> rfl
  | cons u us ih =>
    intro acc
    rw [List.foldl_cons, List.filter_cons]
    by_cases ht : targets p u k
    · obtain ⟨h1, h2⟩ := (targets_iff p u k).mp ht
      rw [if_pos ht]
      rw [ih]
      rw [if_pos h1, h2]
      rw [getElem?_modifySlot, if_pos rfl]
      cases hc : acc[k]? <;> simp [List.foldl_cons]
    · rw [if_neg ht]
      rw [ih]
      have hstep : (if u.id ≠ "" then
          match idToIdx p u.id with
          | some k2 => modifySlot (fun s => applyUpd s u) acc k2
          | none => acc
        else acc)[k]? = acc[k]? := by
        by_cases h1 : u.id ≠ ""
        · rw [if_pos h1]
          cases h2 : idToIdx p u.id with
          | none => rfl
          | some k2 =>
            have hne : k ≠ k2 := by
              rintro rfl
              exact ht ((targets_iff p u k).mpr ⟨h1, h2⟩)
            rw [getElem?_modifySlot, if_neg hne]
        · rw [if_neg h1]
      rw [hstep]

/-- Characterization of the incremental reducer at one index. -/
theorem applyIncr_getElem? (p : List Slot) (ups : List SlotUpd) (k : Nat) :
    (applyIncr p ups)[k]? =
      (p[k]?).map (fun s => (ups.filter (fun u => targets p u k)).foldl applyUpd s) := by
  unfold applyIncr
  exact applyIncr_fold_aux p k ups p

/-- The incremental reducer keeps the plan length. -/
theorem length_applyIncr (p : List Slot) (ups : List SlotUpd) :
    (applyIncr p ups).length = p.length := by
  unfold applyIncr
  have aux : ∀ (us : List SlotUpd) (acc : List Slot),
      (us.foldl (fun acc u =>
        if u.id ≠ "" then
          match idToIdx p u.id with
          | some k2 => modifySlot (fun s => applyUpd s u) acc k2
          | none => acc
        else acc) acc).length = acc.length := by
    intro us
    induction us with
    | nil => intro acc; rfl
    | cons u us ih =>
      intro acc
      rw [List.foldl_cons, ih]
      by_cases h1 : u.id ≠ ""
      · rw [if_pos h1]
        cases h2 : idToIdx p u.id with
        | none => rfl
        | some k2 => exact length_modifySlot _ _ _
      · rw [if_neg h1]
  exact aux ups p

end GolfSched

namespace GolfSched
open SlotStatus

/-- Applying updates that all carry the slot's own id keeps the id. -/
theorem foldl_applyUpd_id (l : List SlotUpd) (s : Slot)
    (h : ∀ u ∈ l, u.id = s.id) : (l.foldl applyUpd s).id = s.id := by
  induction l generalizing s with
  | nil => rfl
  | cons u us ih =>
    rw [List.foldl_cons]
    have hbase : (applyUpd s u).id = s.id := by
      simp [applyUpd, h u (by simp)]
    have hh : ∀ u2 ∈ us, u2.id = (applyUpd s u).id := by
      intro u2 hu2
      rw [hbase]
      exact h u2 (by simp [hu2])
    rw [ih (applyUpd s u) hh, hbase]

/-- A nonempty run of `FILLED` updates leaves the slot `FILLED`. -/
theorem foldl_applyUpd_status_filled (l : List SlotUpd) (s : Slot)
    (h : ∀ u ∈ l, u.status = some FILLED) (hne : l ≠ []) :
    (l.foldl applyUpd s).status = FILLED := by
  induction l generalizing s with
  | nil => cases hne rfl
  | cons u us ih =>
    rw [List.foldl_cons]
    by_cases hus : us = []
    · subst hus
      simp [applyUpd, h u (by simp)]
    · exact ih (applyUpd s u) (fun u2 h2 => h u2 (by simp [h2])) hus

/-- A nonempty run of `FILLED`/`FAILED` updates leaves the slot terminal. -/
theorem foldl_applyUpd_status_terminal (l : List SlotUpd) (s : Slot)
    (h : ∀ u ∈ l, u.status = some FILLED ∨ u.status = some FAILED) (hne : l ≠ []) :
    (l.foldl applyUpd s).status = FILLED ∨ (l.foldl applyUpd s).status = FAILED := by
  induction l generalizing s with
  | nil => cases hne rfl
  | cons u us ih =>
    rw [List.foldl_cons]
    by_cases hus : us = []
    · subst hus
      rcases h u (by simp) with h2 | h2 <;> simp [applyUpd, h2]
    · exact ih (applyUpd s u) (fun u2 h2 => h u2 (by simp [h2])) hus

/-- A field untouched by every applied update is preserved by the fold. -/
theorem foldl_preserve_field {α : Type} (g : Slot → α) (sel : SlotUpd → Option α)
    (hcomp : ∀ s u, sel u = none → g (applyUpd s u) = g s)
    (l : List SlotUpd) (s : Slot) (h : ∀ u ∈ l, sel u = none) :
    g (l.foldl applyUpd s) = g s := by
  induction l generalizing s with
  | nil => rfl
  | cons u us ih =>
    rw [List.foldl_cons, ih (applyUpd s u) (fun u2 h2 => h u2 (by simp [h2])),
      hcomp s u (h u (by simp))]

/-- Every update routed to index `k` carries the id of the slot at `k`. -/
theorem targets_id_eq (p : List Slot) (u : SlotUpd) (k : Nat) (s : Slot)
    (hk : p[k]? = some s) (ht : targets p u k = true) : u.id = s.id := by
  obtain ⟨-, h2⟩ := (targets_iff p u k).mp ht
  obtain ⟨t, htk, hid⟩ := idToIdx_some p u.id k h2
  rw [hk] at htk
  cases htk
  exact hid.symm

end GolfSched

namespace GolfSched
open SlotStatus

/-- C10 (frame property of incremental plan updates): an incremental update
keeps the plan's length and every slot's position and id; a slot whose id no
update entry carries is returned unchanged; on a matched slot only the fields
present in the routed update entries change; and an update entry whose id
matches no slot (or is empty) is dropped with no effect on the result. -/
theorem c10_incremental_frame :
    (∀ (p : List Slot) (ups : List SlotUpd),
       (update_procurement_plan p (.incr ups)).length = p.length) ∧
    (∀ (p : List Slot) (ups : List SlotUpd) (k : Nat) (s s2 : Slot),
       p[k]? = some s → (update_procurement_plan p (.incr ups))[k]? = some s2 →
       s2.id = s.id) ∧
    (∀ (p : List Slot) (ups : List SlotUpd) (k : Nat) (s : Slot),
       p[k]? = some s → (∀ u ∈ ups, u.id ≠ s.id) →
       (update_procurement_plan p (.incr ups))[k]? = some s) ∧
    (∀ (p : List Slot) (ups : List SlotUpd) (k : Nat) (s s2 : Slot),
       p[k]? = some s → (update_procurement_plan p (.incr ups))[k]? = some s2 →
       ((∀ u ∈ ups, targets p u k = true → u.field_name = none) →
          s2.field_name = s.field_name) ∧
       ((∀ u ∈ ups, targets p u k = true → u.description = none) →
          s2.description = s.description) ∧
       ((∀ u ∈ ups, targets p u k = true → u.source_agent = none) →
          s2.source_agent = s.source_agent) ∧
       ((∀ u ∈ ups, targets p u k = true → u.dependencies = none) →
          s2.dependencies = s.dependencies) ∧
       ((∀ u ∈ ups, targets p u k = true → u.status = none) →
          s2.status = s.status) ∧
       ((∀ u ∈ ups, targets p u k = true → u.value = none) →
          s2.value = s.value)) ∧
    (∀ (p : List Slot) (us1 us2 : List SlotUpd) (u : SlotUpd),
       (∀ s ∈ p, s.id ≠ u.id) →
       update_procurement_plan p (.incr (us1 ++ u :: us2)) =
         update_procurement_plan p (.incr (us1 ++ us2))) := by
  have hchar : ∀ (p : List Slot) (ups : List SlotUpd) (k : Nat) (s s2 : Slot),
      p[k]? = some s → (applyIncr p ups)[k]? = some s2 →
      s2 = (ups.filter (fun u => targets p u k)).foldl applyUpd s := by
    intro p ups k s s2 hk hk2
    rw [applyIncr_getElem?, hk] at hk2
    simpa using hk2.symm
  refine ⟨?_, ?_, ?_, ?_, ?_⟩
  · intro p ups
    exact length_applyIncr p ups
  · intro p ups k s s2 hk hk2
    rw [hchar p ups k s s2 hk hk2]
    apply foldl_applyUpd_id
    intro u hu
    exact targets_id_eq p u k s hk (List.mem_filter.mp hu).2
  · intro p ups k s hk hno
    show (applyIncr p ups)[k]? = some s
    rw [applyIncr_getElem?, hk]
    have hfil : ups.filter (fun u => targets p u k) = [] := by
      rw [List.filter_eq_nil_iff]
      intro u hu hcon
      exact hno u hu (targets_id_eq p u k s hk hcon)
    rw [hfil]
    rfl
  · intro p ups k s s2 hk hk2
    have hs2 := hchar p ups k s s2 hk hk2
    subst hs2
    refine ⟨?_, ?_, ?_, ?_, ?_, ?_⟩
    · intro hall
      exact foldl_preserve_field (fun t => t.field_name) (fun u => u.field_name)
        (fun t u hu => by simp [applyUpd, hu]) _ s
        (fun u hu => hall u (List.mem_filter.mp hu).1 (List.mem_filter.mp hu).2)
    · intro hall
      exact foldl_preserve_field (fun t => t.description) (fun u => u.description)
        (fun t u hu => by simp [applyUpd, hu]) _ s
        (fun u hu => hall u (List.mem_filter.mp hu).1 (List.mem_filter.mp hu).2)
    · intro hall
      exact foldl_preserve_field (fun t => t.source_agent) (fun u => u.source_agent)
        (fun t u hu => by simp [applyUpd, hu]) _ s
        (fun u hu => hall u (List.mem_filter.mp hu).1 (List.mem_filter.mp hu).2)
    · intro hall
      exact foldl_preserve_field (fun t => t.dependencies) (fun u => u.dependencies)
        (fun t u hu => by simp [applyUpd, hu]) _ s
        (fun u hu => hall u (List.mem_filter.mp hu).1 (List.mem_filter.mp hu).2)
    · intro hall
      exact foldl_preserve_field (fun t => t.status) (fun u => u.status)
        (fun t u hu => by simp [applyUpd, hu]) _ s
        (fun u hu => hall u (List.mem_filter.mp hu).1 (List.mem_filter.mp hu).2)
    · intro hall
      exact foldl_preserve_field (fun t => t.value) (fun u => u.value)
        (fun t u hu => by simp [applyUpd, hu]) _ s
        (fun u hu => hall u (List.mem_filter.mp hu).1 (List.mem_filter.mp hu).2)
  · intro p us1 us2 u hno
    have hid : idToIdx p u.id = none := by
      rw [idToIdx_none_iff]
      exact hno
    show applyIncr p (us1 ++ u :: us2) = applyIncr p (us1 ++ us2)
    unfold applyIncr
    rw [List.foldl_append, List.foldl_append, List.foldl_cons]
    by_cases h1 : u.id ≠ ""
    · rw [if_pos h1, hid]
    · rw [if_neg h1]

/-- Witness for C10 at a concrete input: an update naming an unknown id
leaves the single-slot plan untouched. -/
theorem c10_incremental_frame_witness :
    (update_procurement_plan [fixFilledA]
        (.incr [{ id := "zzz", status := some FAILED }]))[0]? = some fixFilledA := by
  apply c10_incremental_frame.2.2.1 [fixFilledA] _ 0 fixFilledA rfl
  intro u hu
  rcases List.mem_cons.mp hu with rfl | h2
  · decide
  · cases h2

end GolfSched

namespace GolfSched
open SlotStatus

/-- Every worker-absorption update comes from a `DISPATCHED` slot matching the
reporting agent and moves it to `FAILED` or `FILLED`. -/
theorem mem_handleWorkerResult (plan : List Slot) (trip : TripData)
    (msg : Option Msg) (u : SlotUpd) (hu : u ∈ handleWorkerResult plan trip msg) :
    ∃ s ∈ plan, s.status = DISPATCHED ∧ u.id = s.id ∧
      (u.status = some FAILED ∨ u.status = some FILLED) := by
  cases msg with
  | none => cases hu
  | some m =>
    obtain ⟨s, hs, hws⟩ := List.mem_filterMap.mp hu
    refine ⟨s, hs, ?_⟩
    unfold workerSlotUpd at hws
    split at hws
    next hcond =>
      simp only [Bool.and_eq_true, beq_iff_eq] at hcond
      refine ⟨hcond.1, ?_⟩
      split at hws
      next hfail =>
        cases hws
        exact ⟨rfl, Or.inl rfl⟩
      next hnofail =>
        split at hws
        next rv hext =>
          split at hws
          next htr =>
            cases hws
            exact ⟨rfl, Or.inr rfl⟩
          next htr =>
            cases hws
            exact ⟨rfl, Or.inr rfl⟩
        next hext =>
          cases hws
          exact ⟨rfl, Or.inr rfl⟩
    next hcond => cases hws

/-- Every resynchronization update comes from a `PENDING` slot and moves it to
`FILLED`. -/
theorem mem_syncWithTripData (plan : List Slot) (trip : TripData) (u : SlotUpd)
    (hu : u ∈ syncWithTripData plan trip) :
    ∃ s ∈ plan, s.status = PENDING ∧ u.id = s.id ∧ u.status = some FILLED := by
  obtain ⟨s, hs, hws⟩ := List.mem_filterMap.mp hu
  refine ⟨s, hs, ?_⟩
  unfold syncSlotUpd at hws
  split at hws
  next hcond => cases hws
  next hcond =>
    rw [not_not] at hcond
    refine ⟨hcond, ?_⟩
    split at hws
    next key ext hke =>
      dsimp only at hws
      split at hws
      next hdata =>
        split at hws
        next hv =>
          cases hws
          exact ⟨rfl, rfl⟩
        next hv => cases hws
      next hdata => cases hws
    next hke => cases hws

/-- Under unique ids, a member sharing the id of the slot at an index is that
slot. -/
theorem nodup_mem_getElem_eq (p : List Slot)
    (hnd : (p.map (fun x => x.id)).Nodup) (k : Nat) (t : Slot)
    (hk : p[k]? = some t) (s : Slot) (hs : s ∈ p) (hid : s.id = t.id) :
    s = t := by
  obtain ⟨j, hj, hjs⟩ := List.getElem_of_mem hs
  have hji : p[j]? = some s := by rw [List.getElem?_eq_getElem hj, hjs]
  have h1 := idToIdx_nodup p hnd j s hji
  have h2 := idToIdx_nodup p hnd k t hk
  rw [hid] at h1
  rw [h1] at h2
  cases h2
  rw [hji] at hk
  cases hk
  rfl

/-- Under unique ids, every absorbed update routed to index `k` addresses the
slot at `k` and is either a worker absorption of a `DISPATCHED` slot or a
resynchronization fill of a `PENDING` slot. -/
theorem absorbed_tgt_class (plan : List Slot) (trip : TripData) (msg : Option Msg)
    (hnd : (plan.map (fun x => x.id)).Nodup) (k : Nat) (s : Slot)
    (hk : plan[k]? = some s) :
    ∀ u ∈ (absorbedUps plan trip msg).filter (fun u => targets plan u k),
      (s.status = DISPATCHED ∧ (u.status = some FAILED ∨ u.status = some FILLED)) ∨
      (s.status = PENDING ∧ u.status = some FILLED) := by
  intro u hu
  have htg := (List.mem_filter.mp hu).2
  have hmem := (List.mem_filter.mp hu).1
  have hid := targets_id_eq plan u k s hk htg
  rcases List.mem_append.mp hmem with hw | hs2
  · obtain ⟨t, ht, hdisp, huid, hstat⟩ := mem_handleWorkerResult plan trip msg u hw
    have hts : t = s := nodup_mem_getElem_eq plan hnd k s hk t ht (by rw [← huid, hid])
    exact Or.inl ⟨hts ▸ hdisp, hstat⟩
  · obtain ⟨t, ht, hpend, huid, hstat⟩ := mem_syncWithTripData plan trip u hs2
    have hts : t = s := nodup_mem_getElem_eq plan hnd k s hk t ht (by rw [← huid, hid])
    exact Or.inr ⟨hts ▸ hpend, hstat⟩

end GolfSched

namespace GolfSched
open SlotStatus

/-- Membership from an indexed read. -/
theorem mem_of_getElem_some (l : List Slot) (j : Nat) (t : Slot)
    (h : l[j]? = some t) : t ∈ l := by
  obtain ⟨hh, rfl⟩ := List.getElem?_eq_some.mp h
  exact List.getElem_mem hh

/-- C6 counterexample to the literal three-edge chain: resynchronization moves
a `PENDING` slot directly to `FILLED` without passing through `DISPATCHED`,
a transition outside the strict
`PENDING → DISPATCHED → (FILLED or FAILED)` edge set. -/
theorem c6_strict_chain_counterexample :
    ((update_procurement_plan [fixSyncSlot]
        (.incr (decisionUpdates
          (supervisorDecision 0 [fixSyncSlot] fixSyncTrip none))))[0]?).map
        (fun s => s.status) = some FILLED ∧
    fixSyncSlot.status = PENDING ∧
    strictChainStep PENDING FILLED = false :=
  ⟨rfl, rfl, rfl⟩

/-- C6 (amended status monotonicity): under unique slot ids, across a full
`supervisor_node` invocation (worker absorption, resynchronization, dispatch)
applied through the plan reducer, every slot's status moves only forward along
`PENDING < DISPATCHED < (FILLED, FAILED)`: the possible transitions are
staying put, `PENDING → DISPATCHED`, `PENDING → FILLED` (resynchronization),
`DISPATCHED → FILLED` and `DISPATCHED → FAILED`; nothing moves backward and
terminal statuses never change. -/
theorem c6_status_forward (i : Nat) (plan : List Slot) (trip : TripData)
    (msg : Option Msg) (hnd : (plan.map (fun x => x.id)).Nodup)
    (k : Nat) (s s2 : Slot) (hk : plan[k]? = some s)
    (hk2 : (update_procurement_plan plan
        (.incr (decisionUpdates (supervisorDecision i plan trip msg))))[k]? = some s2) :
    chainStep s.status s2.status = true := by
  have hchar : ∀ (ups : List SlotUpd) (t2 : Slot),
      (applyIncr plan ups)[k]? = some t2 →
      t2 = (ups.filter (fun u => targets plan u k)).foldl applyUpd s := by
    intro ups t2 h2
    rw [applyIncr_getElem?, hk] at h2
    simpa using h2.symm
  have hcommon : ∀ t2 : Slot,
      t2 = ((absorbedUps plan trip msg).filter (fun u => targets plan u k)).foldl
        applyUpd s →
      chainStep s.status t2.status = true := by
    intro t2 ht2
    by_cases hemp : (absorbedUps plan trip msg).filter (fun u => targets plan u k) = []
    · rw [hemp] at ht2
      subst ht2
      simp [chainStep]
    · have hclass := absorbed_tgt_class plan trip msg hnd k s hk
      obtain ⟨u0, hu0⟩ := List.exists_mem_of_ne_nil _ hemp
      rcases hclass u0 hu0 with ⟨hsd, -⟩ | ⟨hsp, -⟩
      · have hterm : (t2.status = FILLED ∨ t2.status = FAILED) := by
          rw [ht2]
          apply foldl_applyUpd_status_terminal
          · intro u hu
            rcases hclass u hu with ⟨-, h⟩ | ⟨-, h⟩
            · exact h.symm
            · exact Or.inl h
          · exact hemp
        rcases hterm with h | h <;> simp [chainStep, hsd, h]
      · have hfil : t2.status = FILLED := by
          rw [ht2]
          apply foldl_applyUpd_status_filled
          · intro u hu
            rcases hclass u hu with ⟨hcon, -⟩ | ⟨-, h⟩
            · rw [hsp] at hcon
              cases hcon
            · exact h
          · exact hemp
        simp [chainStep, hsp, hfil]
  by_cases hi : 10 ≤ i
  · rw [supervisorDecision_cap i plan trip msg hi] at hk2
    have h2 := hchar [] s2 hk2
    simp at h2
    subst h2
    simp [chainStep]
  · have hi2 : i < 10 := by omega
    rw [supervisorDecision_lt i plan trip msg hi2] at hk2
    rcases hcc : checkCompletion (absorbedPlan plan trip msg) with ⟨b1, b2, r⟩
    rw [hcc] at hk2
    cases b1 with
    | true =>
      simp only at hk2
      exact hcommon s2 (hchar _ s2 hk2)
    | false =>
      cases b2 with
      | true =>
        simp only at hk2
        exact hcommon s2 (hchar _ s2 hk2)
      | false =>
        simp only at hk2
        cases hf : findRunnableSlot (absorbedPlan plan trip msg) with
        | none =>
          rw [hf] at hk2
          exact hcommon s2 (hchar _ s2 hk2)
        | some rr =>
          rw [hf] at hk2
          have h2 : s2 = List.foldl applyUpd s (List.filter (fun u => targets plan u k)
              (absorbedUps plan trip msg ++ [dispatchUpd rr.id])) := hchar _ s2 hk2
          rw [List.filter_append] at h2
          by_cases hdt : targets plan (dispatchUpd rr.id) k
          · -- the dispatch update addresses slot k: it was PENDING, becomes DISPATCHED
            have hidr : rr.id = s.id := targets_id_eq plan _ k s hk hdt
            have hrmem : rr ∈ absorbedPlan plan trip msg := List.mem_of_find?_eq_some hf
            have hrpend : rr.status = PENDING := by
              have hx := List.find?_some hf
              simp only [runnableB, Bool.and_eq_true, beq_iff_eq] at hx
              exact hx.1
            obtain ⟨j, hj, hjr⟩ := List.getElem_of_mem hrmem
            have hjq : (absorbedPlan plan trip msg)[j]? = some rr := by
              rw [List.getElem?_eq_getElem hj, hjr]
            have hjq2 := hjq
            unfold absorbedPlan at hjq2
            rw [applyIncr_getElem?] at hjq2
            cases hpj : plan[j]? with
            | none =>
              rw [hpj] at hjq2
              cases hjq2
            | some t =>
              rw [hpj] at hjq2
              have hrfold : rr = ((absorbedUps plan trip msg).filter
                  (fun u => targets plan u j)).foldl applyUpd t := by
                simp only [Option.map] at hjq2
                injection hjq2 with hrr
                exact hrr.symm
              have hrid : rr.id = t.id := by
                rw [hrfold]
                apply foldl_applyUpd_id
                intro u hu
                exact targets_id_eq plan u j t hpj (List.mem_filter.mp hu).2
              have hts : t = s := nodup_mem_getElem_eq plan hnd k s hk t
                (mem_of_getElem_some plan j t hpj) (by rw [← hrid, hidr])
              have hjk : j = k := by
                have ha := idToIdx_nodup plan hnd j t hpj
                have hb := idToIdx_nodup plan hnd k s hk
                rw [hts] at ha
                rw [ha] at hb
                cases hb
                rfl
              subst hjk
              subst hts
              -- no absorbed update touched this slot, else it would be terminal
              have htgt0 : (absorbedUps plan trip msg).filter
                  (fun u => targets plan u j) = [] := by
                by_contra hne
                have hterm := foldl_applyUpd_status_terminal _ t
                  (fun u hu => by
                    rcases absorbed_tgt_class plan trip msg hnd j t hpj u hu with
                      ⟨-, h⟩ | ⟨-, h⟩
                    · exact h.symm
                    · exact Or.inl h) hne
                rw [← hrfold] at hterm
                rw [hrpend] at hterm
                rcases hterm with h | h <;> cases h
              have hspend : t.status = PENDING := by
                have hrs : rr = t := by
                  rw [hrfold, htgt0]
                  rfl
                rw [← hrs]
                exact hrpend
              have hfd : (List.filter (fun u => targets plan u j) [dispatchUpd rr.id]) =
                  [dispatchUpd rr.id] := by
                simp only [List.filter, hdt]
              rw [htgt0, hfd, List.nil_append] at h2
              have hs2st : s2.status = DISPATCHED := by
                rw [h2]
                rfl
              rw [hs2st, hspend]
              simp [chainStep]
          · have hfil2 : (List.filter (fun u => targets plan u k) [dispatchUpd rr.id]) = [] := by
              simp only [List.filter, hdt]
            rw [hfil2, List.append_nil] at h2
            exact hcommon s2 h2

/-- Witness for C6 at a concrete input: the resynchronized slot moves forward
along the chain (`PENDING` to `FILLED`). -/
theorem c6_status_forward_witness :
    chainStep fixSyncSlot.status
      ({ id := "a", field_name := "hotel_name", description := "获取酒店名称",
         source_agent := "hotel_agent", dependencies := [], status := FILLED,
         value := some (.vstr "Seaside Inn") } : Slot).status = true :=
  c6_status_forward 0 [fixSyncSlot] fixSyncTrip none (by decide) 0 fixSyncSlot _ rfl rfl

end GolfSched

namespace GolfSched
open SlotStatus

/-- Dropping leading elements never crosses a non-matching last element. -/
theorem dropWhile_append_keep {α : Type} (p : α → Bool) (xs : List α) (c : α)
    (hc : p c = false) :
    List.dropWhile p (xs ++ [c]) = List.dropWhile p xs ++ [c] := by
  induction xs with
  | nil => simp [List.dropWhile, hc]
  | cons x xs ih =>
    by_cases hx : p x
    · simp [List.dropWhile_cons, hx, ih]
    · simp [List.dropWhile_cons, hx]

/-- A string starting with `[` is flagged invalid by the sanity guard:
lowercasing keeps the bracket and stripping cannot remove it. -/
theorem bracket_guard (str : String) (l : List Char) (hd : str.data = '[' :: l) :
    guardInvalidVal (.vstr str) = true := by
  have hne : (str == "") = false := by
    apply beq_eq_false_iff_ne.mpr
    intro h
    rw [h] at hd
    cases hd
  have htr : pyTruthy (.vstr str) = true := by
    simp [pyTruthy, hne]
  have h1 : (strLower str).data = '[' :: l.map Char.toLower := by
    show str.data.map Char.toLower = _
    rw [hd, List.map_cons]
    rw [show Char.toLower '[' = '[' from by decide]
  have h2 : (strTrim (strLower str)).data =
      '[' :: (List.dropWhile isPySpace (l.map Char.toLower).reverse).reverse := by
    show (((strLower str).data.dropWhile isPySpace).reverse.dropWhile isPySpace).reverse = _
    rw [h1]
    rw [List.dropWhile_cons]
    rw [show isPySpace '[' = false from by decide]
    simp only [Bool.false_eq_true, if_false, List.reverse_cons]
    rw [dropWhile_append_keep isPySpace _ '[' (by decide)]
    rw [List.reverse_append]
    rfl
  have hvs : startsWithStr (strTrim (strLower (pyStr (.vstr str)))) "[" = true := by
    show charsStartWith "[".data (strTrim (strLower str)).data = true
    rw [h2]
    rfl
  unfold guardInvalidVal
  rw [htr]
  simp only [if_true]
  rw [hvs]
  simp

/-- The sentinel message opens with a bracket. -/
theorem sentinelMsg_data (s : Slot) :
    ∃ l, (sentinelMsg s).data = '[' :: l := by
  refine ⟨(s.source_agent ++ "] 数据已获取，但无法提取 " ++ s.field_name).data, ?_⟩
  show ("[" ++ (s.source_agent ++ "] 数据已获取，但无法提取 " ++ s.field_name)).data = _
  rw [String.data_append]
  rfl

/-- C4 (worker-result absorption): for a `DISPATCHED` slot whose agent matches
the reporting message, a failure-convention response yields a `FAILED` update
carrying the short diagnostic; a success with a truthy extractable payload
yields a `FILLED` update carrying that payload; a success with no truthy
extractable payload yields a `FILLED` update carrying the
"acquired but unusable" sentinel, which is bracket-prefixed and recognized as
invalid by the value-sanity guard — never indistinguishable from a real
extracted value. -/
theorem c4_worker_absorption (plan : List Slot) (trip : TripData) (m : Msg)
    (s : Slot) (hs : s ∈ plan) (hdisp : s.status = DISPATCHED)
    (hname : m.name = some s.source_agent) :
    (isFailureMsg m.content = true →
       ({ id := s.id, status := some FAILED,
          value := some (some (.vstr ("失败: " ++ strTake m.content 100))) } : SlotUpd) ∈
         handleWorkerResult plan trip (some m)) ∧
    (isFailureMsg m.content = false →
       ∀ rv, extractReal trip s = some rv → pyTruthy rv = true →
       ({ id := s.id, status := some FILLED, value := some (some rv) } : SlotUpd) ∈
         handleWorkerResult plan trip (some m)) ∧
    (isFailureMsg m.content = false → truthyOpt (extractReal trip s) = false →
       ({ id := s.id, status := some FILLED,
          value := some (some (.vstr (sentinelMsg s))) } : SlotUpd) ∈
         handleWorkerResult plan trip (some m) ∧
       guardInvalidVal (.vstr (sentinelMsg s)) = true) := by
  have hcond : (s.status == DISPATCHED && m.name == some s.source_agent) = true := by
    simp [hdisp, hname]
  refine ⟨?_, ?_, ?_⟩
  · intro hfail
    apply List.mem_filterMap.mpr
    refine ⟨s, hs, ?_⟩
    unfold workerSlotUpd
    rw [if_pos hcond, if_pos hfail]
  · intro hnofail rv hext htru
    apply List.mem_filterMap.mpr
    refine ⟨s, hs, ?_⟩
    unfold workerSlotUpd
    rw [if_pos hcond, if_neg (by simp [hnofail]), hext]
    simp only [htru, if_true]
  · intro hnofail htru
    constructor
    · apply List.mem_filterMap.mpr
      refine ⟨s, hs, ?_⟩
      unfold workerSlotUpd
      rw [if_pos hcond, if_neg (by simp [hnofail])]
      cases hext : extractReal trip s with
      | none => rfl
      | some rv =>
        rw [hext] at htru
        simp only [truthyOpt] at htru
        simp only [htru, Bool.false_eq_true, if_false]
    · obtain ⟨l, hl⟩ := sentinelMsg_data s
      exact bracket_guard (sentinelMsg s) l hl

/-- Witness for C4 at a concrete input: a nominally successful search report
with an empty fact store produces the flagged sentinel update. -/
theorem c4_worker_absorption_witness :
    ({ id := "t", status := some FILLED,
       value := some (some (.vstr (sentinelMsg fixDispTips))) } : SlotUpd) ∈
        handleWorkerResult [fixDispTips] []
          (some { name := some "search_agent", content := "完成" }) ∧
      guardInvalidVal (.vstr (sentinelMsg fixDispTips)) = true :=
  (c4_worker_absorption [fixDispTips] [] { name := some "search_agent", content := "完成" }
    fixDispTips (List.mem_cons_self _ _) rfl rfl).2.2 rfl rfl

end GolfSched

namespace GolfSched
open SlotStatus

/-- A prefix of the left part is a prefix of the whole. -/
theorem charsStartWith_append (p l r : List Char)
    (h : charsStartWith p l = true) : charsStartWith p (l ++ r) = true := by
  induction p generalizing l with
  | nil => rfl
  | cons a as ih =>
    cases l with
    | nil => cases h
    | cons b bs =>
      simp only [charsStartWith, Bool.and_eq_true] at h ⊢
      exact ⟨h.1, ih bs h.2⟩

/-- C7 counterexample: a weather slot whose single dependency holds the
placeholder token `未知` — invalid by the guard's own criteria — is still
dispatched to the weather worker with an ordinary (non-`ABORT`) instruction;
the guard never runs outside `search_agent` slots, and the worker call is
spent. -/
theorem c7_sanity_guard_counterexample :
    supervisorDecision 0 [fixLocSlot, fixWeatherSlot] [] none =
      .dispatch "weather_agent" "查询 \x27未知\x27 的天气预报" [dispatchUpd "w"] ∧
    guardInvalidVal (.vstr "未知") = true ∧
    nextStepOf (supervisorDecision 0 [fixLocSlot, fixWeatherSlot] [] none) =
      "weather_agent" ∧
    startsWithStr "查询 \x27未知\x27 的天气预报" "[ABORT]" = false :=
  ⟨rfl, rfl, rfl, rfl⟩

/-- C7 (amended value-sanity guard): the guard applies only to `search_agent`
slots with at least one collected (truthy) dependency value; when some
collected value is invalid, the hydrated instruction becomes the `[ABORT]`
directive telling the worker to fail fast — but the slot is still marked
`DISPATCHED` and routed to the worker, so a worker round-trip is still
spent on it. -/
theorem c7_sanity_guard_amended (i : Nat) (plan : List Slot) (trip : TripData)
    (msg : Option Msg) (hi : i < 10) (s : Slot)
    (hf : findRunnableSlot (absorbedPlan plan trip msg) = some s)
    (hsa : s.source_agent = "search_agent")
    (hne : (collectDeps (absorbedPlan plan trip msg) s.dependencies).2 ≠ [])
    (f : String) (v : Val)
    (hinv : firstInvalidEntity
      (collectDeps (absorbedPlan plan trip msg) s.dependencies).2 = some (f, v)) :
    hydrateInstruction s (absorbedPlan plan trip msg) = abortInstr f v ∧
    supervisorDecision i plan trip msg =
      .dispatch s.source_agent (abortInstr f v)
        (absorbedUps plan trip msg ++ [dispatchUpd s.id]) ∧
    startsWithStr (abortInstr f v) "[ABORT]" = true := by
  have hpend : s.status = PENDING := by
    have hx := List.find?_some hf
    simp only [runnableB, Bool.and_eq_true, beq_iff_eq] at hx
    exact hx.1
  have hmem : s ∈ absorbedPlan plan trip msg := List.mem_of_find?_eq_some hf
  have hhyd : hydrateInstruction s (absorbedPlan plan trip msg) = abortInstr f v := by
    unfold hydrateInstruction
    rw [hsa]
    dsimp only
    have hcond : (("search_agent" == "search_agent") &&
        !(collectDeps (absorbedPlan plan trip msg) s.dependencies).2.isEmpty) = true := by
      simp only [beq_self_eq_true, Bool.true_and, Bool.not_eq_true']
      rw [← Bool.not_eq_true]
      intro hcon
      exact hne (List.isEmpty_iff.mp hcon)
    rw [if_pos hcond, hinv]
  refine ⟨hhyd, ?_, ?_⟩
  · rw [supervisorDecision_lt i plan trip msg hi]
    have hb1 : (checkCompletion (absorbedPlan plan trip msg)).1 = false := by
      cases hb : (checkCompletion (absorbedPlan plan trip msg)).1 with
      | false => rfl
      | true =>
        have hc := (checkCompletion_fst_iff _).mp hb
        have hz := List.countP_eq_zero.mp hc.1 s hmem
        simp [hpend] at hz
    have hb2 : (checkCompletion (absorbedPlan plan trip msg)).2.1 = false := by
      cases hb : (checkCompletion (absorbedPlan plan trip msg)).2.1 with
      | false => rfl
      | true =>
        have := (checkCompletion_snd_iff _).mp hb
        rw [hf] at this
        cases this.1
    rcases hcc : checkCompletion (absorbedPlan plan trip msg) with ⟨b1, b2, r⟩
    rw [hcc] at hb1 hb2
    simp only at hb1 hb2
    subst hb1
    subst hb2
    simp only [hf, hhyd]
  · show charsStartWith "[ABORT]".data (abortInstr f v).data = true
    have : (abortInstr f v).data =
        "[ABORT] 依赖数据 \x27".data ++
          (f ++ ("\x27 无效（值: " ++ (pyStr v ++ "），无法执行搜索。请直接返回 FAILURE。"))).data := by
      show (("[ABORT] 依赖数据 \x27" ++ f ++ "\x27 无效（值: " ++ pyStr v ++
        "），无法执行搜索。请直接返回 FAILURE。")).data = _
      rw [String.append_assoc, String.append_assoc, String.append_assoc]
      rw [String.data_append]
    rw [this]
    apply charsStartWith_append
    decide

/-- Witness for C7 at a concrete input: the review-search slot whose hotel
dependency holds `未知酒店` gets the `[ABORT]` instruction yet is still
dispatched to the search worker. -/
theorem c7_sanity_guard_amended_witness :
    supervisorDecision 0 [fixBadHotel, fixSearch] [] none =
      .dispatch fixSearch.source_agent (abortInstr "hotel_name" (.vstr "未知酒店"))
        (absorbedUps [fixBadHotel, fixSearch] [] none ++ [dispatchUpd fixSearch.id]) :=
  (c7_sanity_guard_amended 0 [fixBadHotel, fixSearch] [] none (by decide) fixSearch
    rfl rfl (fun hx => nomatch hx) "hotel_name" (.vstr "未知酒店") rfl).2.1

end GolfSched

namespace GolfSched
open SlotStatus

/-- C8 counterexample: slot `a` (hotel worker, target `hotel_name`) has just
reported failure, and in the very same invocation the scheduler dispatches
slot `b` — the same worker for the same target field — instead of forcing
termination: no repeated-failure circuit breaker exists. -/
theorem c8_repeated_failure_counterexample :
    supervisorDecision 0 [fixDupA, fixDupB] [] (some fixFailMsg) =
      .dispatch "hotel_agent" "获取酒店名称"
        [{ id := "a", status := some FAILED,
           value := some (some (.vstr ("失败: " ++ strTake fixFailMsg.content 100))) },
         dispatchUpd "b"] ∧
    isFailureMsg fixFailMsg.content = true ∧
    fixFailMsg.name = some fixDupA.source_agent ∧
    fixDupB.source_agent = fixDupA.source_agent ∧
    fixDupB.field_name = fixDupA.field_name ∧
    nextStepOf (supervisorDecision 0 [fixDupA, fixDupB] [] (some fixFailMsg)) =
      "hotel_agent" :=
  ⟨rfl, rfl, rfl, rfl, rfl, rfl⟩

/-- C8 (amended): there is no repeated-failure circuit breaker; what does hold
is that a dispatch decision only ever selects a slot that is `PENDING` in the
absorbed plan view — so the slot whose worker just failed (now `FAILED`,
a terminal status) is itself never dispatched again — and no dispatch at all
happens at or beyond the iteration cap.  A different slot naming the same
worker and target field may be dispatched immediately after the failure. -/
theorem c8_no_repeat_breaker (i : Nat) (plan : List Slot) (trip : TripData)
    (msg : Option Msg) (a instr : String) (u : List SlotUpd)
    (heq : supervisorDecision i plan trip msg = .dispatch a instr u) :
    i < 10 ∧
    ∃ s, findRunnableSlot (absorbedPlan plan trip msg) = some s ∧
      s.status = PENDING ∧ s.status ≠ FAILED ∧ a = s.source_agent := by
  have hi : i < 10 := by
    by_contra hcon
    rw [supervisorDecision_cap i plan trip msg (by omega)] at heq
    cases heq
  refine ⟨hi, ?_⟩
  rw [supervisorDecision_lt i plan trip msg hi] at heq
  rcases hcc : checkCompletion (absorbedPlan plan trip msg) with ⟨b1, b2, r⟩
  rw [hcc] at heq
  cases b1 with
  | true => simp only at heq; cases heq
  | false =>
    cases b2 with
    | true => simp only at heq; cases heq
    | false =>
      simp only at heq
      cases hf : findRunnableSlot (absorbedPlan plan trip msg) with
      | none =>
        rw [hf] at heq
        cases heq
      | some s =>
        rw [hf] at heq
        cases heq
        have hpend : s.status = PENDING := by
          have hx := List.find?_some hf
          simp only [runnableB, Bool.and_eq_true, beq_iff_eq] at hx
          exact hx.1
        refine ⟨s, rfl, hpend, ?_, rfl⟩
        rw [hpend]
        intro h
        cases h

/-- Witness for C8 at a concrete input: the dispatch right after the failure
selects the pending twin slot, not the failed one. -/
theorem c8_no_repeat_breaker_witness :
    0 < 10 ∧
    ∃ s, findRunnableSlot (absorbedPlan [fixDupA, fixDupB] [] (some fixFailMsg)) = some s ∧
      s.status = PENDING ∧ s.status ≠ FAILED ∧ "hotel_agent" = s.source_agent :=
  c8_no_repeat_breaker 0 [fixDupA, fixDupB] [] (some fixFailMsg) "hotel_agent"
    "获取酒店名称"
    [{ id := "a", status := some FAILED,
       value := some (some (.vstr ("失败: " ++ strTake fixFailMsg.content 100))) },
     dispatchUpd "b"] rfl

end GolfSched

namespace GolfSched
open SlotStatus

/-- The id map finds nothing for an id no slot carries. -/
theorem slotLookup_eq_none (p : List Slot) (d : String)
    (h : ∀ t ∈ p, t.id ≠ d) : slotLookup p d = none := by
  induction p with
  | nil => rfl
  | cons a rest ih =>
    unfold slotLookup
    rw [ih (fun t ht => h t (by simp [ht]))]
    rw [if_neg (by simpa using h a (by simp))]

/-- C9 counterexample: a generator plan whose only slot depends on the absent
id `ghost`, and a plan with two slots sharing one id, are both accepted
verbatim by the plan construction path (planner conversion plus reducer, no
structural validation anywhere); the dangling dependency is then discovered
mid-execution, as a deadlock in the very first scheduler pass — not rejected
at load time. -/
theorem c9_malformed_plan_counterexample :
    update_procurement_plan [] (plannerPlan [fixDangleSpec]) = [fixDangleSlot] ∧
    update_procurement_plan [] (.replace [fixDupId1, fixDupId2]) =
      [fixDupId1, fixDupId2] ∧
    supervisorDecision 0 [fixDangleSlot] [] none =
      .deadlock "死锁: 1 个 Slot 依赖未满足" [] :=
  ⟨rfl, rfl, rfl⟩

/-- C9 (amended): no plan-load validation exists — the reducer's replacement
mode accepts any slot list verbatim and the planner conversion performs no
structural checks — and a slot with a dangling dependency (an id no slot in
the plan carries) is never selected for dispatch, so the malformation
surfaces at run time through deadlock detection rather than at construction
time. -/
theorem c9_no_load_validation (plan : List Slot) :
    (∀ cur : List Slot, update_procurement_plan cur (.replace plan) = plan) ∧
    (∀ (cur : List Slot) (specs : List DataSlotSpec),
       update_procurement_plan cur (plannerPlan specs) =
         specs.map (fun sp =>
           { id := sp.id, field_name := sp.field_name,
             description := sp.description, source_agent := sp.source_agent,
             dependencies := sp.dependencies, status := PENDING,
             value := none })) ∧
    (∀ (s : Slot) (d : String), s ∈ plan → d ∈ s.dependencies →
       (∀ t ∈ plan, t.id ≠ d) →
       ∀ x, findRunnableSlot plan = some x → x ≠ s) := by
  refine ⟨fun _ => rfl, fun _ _ => rfl, ?_⟩
  intro s d hs hd hnone x hx hxs
  subst hxs
  have hrun := List.find?_some hx
  simp only [runnableB, Bool.and_eq_true, List.all_eq_true] at hrun
  have hdf := hrun.2 d hd
  unfold depFilled at hdf
  rw [slotLookup_eq_none plan d hnone] at hdf
  cases hdf

/-- Witness for C9 at a concrete input: next to a runnable slot, the
dangling-dependency slot is not the one selected. -/
theorem c9_no_load_validation_witness :
    fixPendingC ≠ fixDangleSlot :=
  (c9_no_load_validation [fixPendingC, fixDangleSlot]).2.2 fixDangleSlot "ghost"
    (by simp) (by simp [fixDangleSlot])
    (by
      intro t ht
      rcases List.mem_cons.mp ht with rfl | ht2
      · decide
      · rcases List.mem_cons.mp ht2 with rfl | ht3
        · decide
        · cases ht3)
    fixPendingC rfl

end GolfSched
